import Mathlib

/-!
Verification development for the `rstruct` dynamic record accessor of the
ramda Go library (package `rstruct`: struct.go and the deep-clone file).

The embedding models Go runtime values as trees.  A struct value carries its
fields as an ordered association list of (exported field name, value); the
declared type of a field is the type of the stored value (interface-typed
fields are always stored wrapped in `vIface`/`vIfaceNil`, so their stored
type is `Ty.iface`).  Non-nil pointers, slices and maps carry an allocation
address (a `Nat` tag) identifying their backing storage, so that sharing of
mutable storage is expressible; the tags are otherwise inert.  `vIfaceNil`
models the Go `nil` interface value (an `any` holding nothing); Go
auto-flattens interfaces, so a dynamic (concrete) value is never itself an
interface wrapper.  Only exported fields are modelled: reflect treats
unexported fields specially and the library's API addresses exported fields
throughout.  Reflect panics (`reflect.Value.Set` on an unaddressable value,
`reflect.Value.Type` on the zero `Value` obtained from `reflect.ValueOf(nil)`)
are modelled as an explicit `fault` outcome.
-/

namespace rstruct

/-- Go runtime types, restricted to the shapes the library manipulates. -/
inductive Ty : Type where
  | int : Ty
  | str : Ty
  | bool : Ty
  | struct : List (String × Ty) → Ty
  | ptr : Ty → Ty
  | slice : Ty → Ty
  | tmap : Ty → Ty → Ty
  | array : Nat → Ty → Ty
  | iface : Ty

/-- Go runtime values.  Non-nil pointers, slices and maps carry an
allocation address (`Nat`) identifying their backing storage; the nil
variants model Go's nil pointer / nil slice / nil map / nil interface. -/
inductive Value : Type where
  | vInt : Int → Value
  | vStr : String → Value
  | vBool : Bool → Value
  | vStruct : List (String × Value) → Value
  | vPtrNil : Ty → Value
  | vPtr : Ty → Nat → Value → Value
  | vSliceNil : Ty → Value
  | vSlice : Ty → Nat → List Value → Value
  | vMapNil : Ty → Ty → Value
  | vMap : Ty → Ty → Nat → List (Value × Value) → Value
  | vArr : Ty → List Value → Value
  | vIfaceNil : Value
  | vIface : Value → Value

mutual

def decTy : (a b : Ty) → Decidable (a = b)
  | .int, .int => isTrue rfl
  | .str, .str => isTrue rfl
  | .bool, .bool => isTrue rfl
  | .struct fs₁, .struct fs₂ =>
    match decTyFields fs₁ fs₂ with
    | isTrue h => isTrue (by rw [h])
    | isFalse h => isFalse (by intro h₂; injection h₂; contradiction)
  | .ptr t₁, .ptr t₂ =>
    match decTy t₁ t₂ with
    | isTrue h => isTrue (by rw [h])
    | isFalse h => isFalse (by intro h₂; injection h₂; contradiction)
  | .slice t₁, .slice t₂ =>
    match decTy t₁ t₂ with
    | isTrue h => isTrue (by rw [h])
    | isFalse h => isFalse (by intro h₂; injection h₂; contradiction)
  | .tmap k₁ v₁, .tmap k₂ v₂ =>
    match decTy k₁ k₂, decTy v₁ v₂ with
    | isTrue h₁, isTrue h₂ => isTrue (by rw [h₁, h₂])
    | isFalse h, _ => isFalse (by intro h₂; injection h₂; contradiction)
    | _, isFalse h => isFalse (by intro h₂; injection h₂; contradiction)
  | .array n₁ t₁, .array n₂ t₂ =>
    match decEq n₁ n₂, decTy t₁ t₂ with
    | isTrue h₁, isTrue h₂ => isTrue (by rw [h₁, h₂])
    | isFalse h, _ => isFalse (by intro h₂; injection h₂; contradiction)
    | _, isFalse h => isFalse (by intro h₂; injection h₂; contradiction)
  | .iface, .iface => isTrue rfl
  | .int, .str | .int, .bool | .int, .struct _ | .int, .ptr _ | .int, .slice _
  | .int, .tmap _ _ | .int, .array _ _ | .int, .iface
  | .str, .int | .str, .bool | .str, .struct _ | .str, .ptr _ | .str, .slice _
  | .str, .tmap _ _ | .str, .array _ _ | .str, .iface
  | .bool, .int | .bool, .str | .bool, .struct _ | .bool, .ptr _ | .bool, .slice _
  | .bool, .tmap _ _ | .bool, .array _ _ | .bool, .iface
  | .struct _, .int | .struct _, .str | .struct _, .bool | .struct _, .ptr _
  | .struct _, .slice _ | .struct _, .tmap _ _ | .struct _, .array _ _ | .struct _, .iface
  | .ptr _, .int | .ptr _, .str | .ptr _, .bool | .ptr _, .struct _
  | .ptr _, .slice _ | .ptr _, .tmap _ _ | .ptr _, .array _ _ | .ptr _, .iface
  | .slice _, .int | .slice _, .str | .slice _, .bool | .slice _, .struct _
  | .slice _, .ptr _ | .slice _, .tmap _ _ | .slice _, .array _ _ | .slice _, .iface
  | .tmap _ _, .int | .tmap _ _, .str | .tmap _ _, .bool | .tmap _ _, .struct _
  | .tmap _ _, .ptr _ | .tmap _ _, .slice _ | .tmap _ _, .array _ _ | .tmap _ _, .iface
  | .array _ _, .int | .array _ _, .str | .array _ _, .bool | .array _ _, .struct _
  | .array _ _, .ptr _ | .array _ _, .slice _ | .array _ _, .tmap _ _ | .array _ _, .iface
  | .iface, .int | .iface, .str | .iface, .bool | .iface, .struct _
  | .iface, .ptr _ | .iface, .slice _ | .iface, .tmap _ _ | .iface, .array _ _ =>
    isFalse (by intro h; exact absurd h (by simp))

def decTyFields : (a b : List (String × Ty)) → Decidable (a = b)
  | [], [] => isTrue rfl
  | [], _ :: _ => isFalse (by intro h; exact absurd h (by simp))
  | _ :: _, [] => isFalse (by intro h; exact absurd h (by simp))
  | (n₁, t₁) :: r₁, (n₂, t₂) :: r₂ =>
    match decEq n₁ n₂, decTy t₁ t₂, decTyFields r₁ r₂ with
    | isTrue h₁, isTrue h₂, isTrue h₃ => isTrue (by rw [h₁, h₂, h₃])
    | isFalse h, _, _ => isFalse (by intro h₂; injection h₂ with hh _; injection hh; contradiction)
    | _, isFalse h, _ => isFalse (by intro h₂; injection h₂ with hh _; injection hh; contradiction)
    | _, _, isFalse h => isFalse (by intro h₂; injection h₂; contradiction)

end

instance : DecidableEq Ty := decTy

mutual

def decValue : (a b : Value) → Decidable (a = b)
  | .vInt i, .vInt j =>
    match decEq i j with
    | isTrue h => isTrue (by rw [h])
    | isFalse h => isFalse (by intro hh; injection hh; contradiction)
  | .vStr s₁, .vStr s₂ =>
    match decEq s₁ s₂ with
    | isTrue h => isTrue (by rw [h])
    | isFalse h => isFalse (by intro hh; injection hh; contradiction)
  | .vBool b₁, .vBool b₂ =>
    match decEq b₁ b₂ with
    | isTrue h => isTrue (by rw [h])
    | isFalse h => isFalse (by intro hh; injection hh; contradiction)
  | .vStruct fs₁, .vStruct fs₂ =>
    match decValueFields fs₁ fs₂ with
    | isTrue h => isTrue (by rw [h])
    | isFalse h => isFalse (by intro hh; injection hh; contradiction)
  | .vPtrNil t₁, .vPtrNil t₂ =>
    match decTy t₁ t₂ with
    | isTrue h => isTrue (by rw [h])
    | isFalse h => isFalse (by intro hh; injection hh; contradiction)
  | .vPtr t₁ a₁ p₁, .vPtr t₂ a₂ p₂ =>
    match decTy t₁ t₂, decEq a₁ a₂, decValue p₁ p₂ with
    | isTrue h₁, isTrue h₂, isTrue h₃ => isTrue (by rw [h₁, h₂, h₃])
    | isFalse h, _, _ => isFalse (by intro hh; injection hh; contradiction)
    | _, isFalse h, _ => isFalse (by intro hh; injection hh; contradiction)
    | _, _, isFalse h => isFalse (by intro hh; injection hh; contradiction)
  | .vSliceNil t₁, .vSliceNil t₂ =>
    match decTy t₁ t₂ with
    | isTrue h => isTrue (by rw [h])
    | isFalse h => isFalse (by intro hh; injection hh; contradiction)
  | .vSlice t₁ a₁ es₁, .vSlice t₂ a₂ es₂ =>
    match decTy t₁ t₂, decEq a₁ a₂, decValueList es₁ es₂ with
    | isTrue h₁, isTrue h₂, isTrue h₃ => isTrue (by rw [h₁, h₂, h₃])
    | isFalse h, _, _ => isFalse (by intro hh; injection hh; contradiction)
    | _, isFalse h, _ => isFalse (by intro hh; injection hh; contradiction)
    | _, _, isFalse h => isFalse (by intro hh; injection hh; contradiction)
  | .vMapNil k₁ v₁, .vMapNil k₂ v₂ =>
    match decTy k₁ k₂, decTy v₁ v₂ with
    | isTrue h₁, isTrue h₂ => isTrue (by rw [h₁, h₂])
    | isFalse h, _ => isFalse (by intro hh; injection hh; contradiction)
    | _, isFalse h => isFalse (by intro hh; injection hh; contradiction)
  | .vMap k₁ v₁ a₁ es₁, .vMap k₂ v₂ a₂ es₂ =>
    match decTy k₁ k₂, decTy v₁ v₂, decEq a₁ a₂, decValueEntries es₁ es₂ with
    | isTrue h₁, isTrue h₂, isTrue h₃, isTrue h₄ => isTrue (by rw [h₁, h₂, h₃, h₄])
    | isFalse h, _, _, _ => isFalse (by intro hh; injection hh; contradiction)
    | _, isFalse h, _, _ => isFalse (by intro hh; injection hh; contradiction)
    | _, _, isFalse h, _ => isFalse (by intro hh; injection hh; contradiction)
    | _, _, _, isFalse h => isFalse (by intro hh; injection hh; contradiction)
  | .vArr t₁ es₁, .vArr t₂ es₂ =>
    match decTy t₁ t₂, decValueList es₁ es₂ with
    | isTrue h₁, isTrue h₂ => isTrue (by rw [h₁, h₂])
    | isFalse h, _ => isFalse (by intro hh; injection hh; contradiction)
    | _, isFalse h => isFalse (by intro hh; injection hh; contradiction)
  | .vIfaceNil, .vIfaceNil => isTrue rfl
  | .vIface x₁, .vIface x₂ =>
    match decValue x₁ x₂ with
    | isTrue h => isTrue (by rw [h])
    | isFalse h => isFalse (by intro hh; injection hh; contradiction)
  | .vInt _, .vStr _ | .vInt _, .vBool _ | .vInt _, .vStruct _ | .vInt _, .vPtrNil _
  | .vInt _, .vPtr _ _ _ | .vInt _, .vSliceNil _ | .vInt _, .vSlice _ _ _
  | .vInt _, .vMapNil _ _ | .vInt _, .vMap _ _ _ _ | .vInt _, .vArr _ _ | .vInt _, .vIfaceNil
  | .vInt _, .vIface _
  | .vStr _, .vInt _ | .vStr _, .vBool _ | .vStr _, .vStruct _ | .vStr _, .vPtrNil _
  | .vStr _, .vPtr _ _ _ | .vStr _, .vSliceNil _ | .vStr _, .vSlice _ _ _
  | .vStr _, .vMapNil _ _ | .vStr _, .vMap _ _ _ _ | .vStr _, .vArr _ _ | .vStr _, .vIfaceNil
  | .vStr _, .vIface _
  | .vBool _, .vInt _ | .vBool _, .vStr _ | .vBool _, .vStruct _ | .vBool _, .vPtrNil _
  | .vBool _, .vPtr _ _ _ | .vBool _, .vSliceNil _ | .vBool _, .vSlice _ _ _
  | .vBool _, .vMapNil _ _ | .vBool _, .vMap _ _ _ _ | .vBool _, .vArr _ _
  | .vBool _, .vIfaceNil | .vBool _, .vIface _
  | .vStruct _, .vInt _ | .vStruct _, .vStr _ | .vStruct _, .vBool _ | .vStruct _, .vPtrNil _
  | .vStruct _, .vPtr _ _ _ | .vStruct _, .vSliceNil _ | .vStruct _, .vSlice _ _ _
  | .vStruct _, .vMapNil _ _ | .vStruct _, .vMap _ _ _ _ | .vStruct _, .vArr _ _
  | .vStruct _, .vIfaceNil | .vStruct _, .vIface _
  | .vPtrNil _, .vInt _ | .vPtrNil _, .vStr _ | .vPtrNil _, .vBool _ | .vPtrNil _, .vStruct _
  | .vPtrNil _, .vPtr _ _ _ | .vPtrNil _, .vSliceNil _ | .vPtrNil _, .vSlice _ _ _
  | .vPtrNil _, .vMapNil _ _ | .vPtrNil _, .vMap _ _ _ _ | .vPtrNil _, .vArr _ _
  | .vPtrNil _, .vIfaceNil | .vPtrNil _, .vIface _
  | .vPtr _ _ _, .vInt _ | .vPtr _ _ _, .vStr _ | .vPtr _ _ _, .vBool _
  | .vPtr _ _ _, .vStruct _ | .vPtr _ _ _, .vPtrNil _ | .vPtr _ _ _, .vSliceNil _
  | .vPtr _ _ _, .vSlice _ _ _ | .vPtr _ _ _, .vMapNil _ _ | .vPtr _ _ _, .vMap _ _ _ _
  | .vPtr _ _ _, .vArr _ _ | .vPtr _ _ _, .vIfaceNil | .vPtr _ _ _, .vIface _
  | .vSliceNil _, .vInt _ | .vSliceNil _, .vStr _ | .vSliceNil _, .vBool _
  | .vSliceNil _, .vStruct _ | .vSliceNil _, .vPtrNil _ | .vSliceNil _, .vPtr _ _ _
  | .vSliceNil _, .vSlice _ _ _ | .vSliceNil _, .vMapNil _ _ | .vSliceNil _, .vMap _ _ _ _
  | .vSliceNil _, .vArr _ _ | .vSliceNil _, .vIfaceNil | .vSliceNil _, .vIface _
  | .vSlice _ _ _, .vInt _ | .vSlice _ _ _, .vStr _ | .vSlice _ _ _, .vBool _
  | .vSlice _ _ _, .vStruct _ | .vSlice _ _ _, .vPtrNil _ | .vSlice _ _ _, .vPtr _ _ _
  | .vSlice _ _ _, .vSliceNil _ | .vSlice _ _ _, .vMapNil _ _ | .vSlice _ _ _, .vMap _ _ _ _
  | .vSlice _ _ _, .vArr _ _ | .vSlice _ _ _, .vIfaceNil | .vSlice _ _ _, .vIface _
  | .vMapNil _ _, .vInt _ | .vMapNil _ _, .vStr _ | .vMapNil _ _, .vBool _
  | .vMapNil _ _, .vStruct _ | .vMapNil _ _, .vPtrNil _ | .vMapNil _ _, .vPtr _ _ _
  | .vMapNil _ _, .vSliceNil _ | .vMapNil _ _, .vSlice _ _ _ | .vMapNil _ _, .vMap _ _ _ _
  | .vMapNil _ _, .vArr _ _ | .vMapNil _ _, .vIfaceNil | .vMapNil _ _, .vIface _
  | .vMap _ _ _ _, .vInt _ | .vMap _ _ _ _, .vStr _ | .vMap _ _ _ _, .vBool _
  | .vMap _ _ _ _, .vStruct _ | .vMap _ _ _ _, .vPtrNil _ | .vMap _ _ _ _, .vPtr _ _ _
  | .vMap _ _ _ _, .vSliceNil _ | .vMap _ _ _ _, .vSlice _ _ _ | .vMap _ _ _ _, .vMapNil _ _
  | .vMap _ _ _ _, .vArr _ _ | .vMap _ _ _ _, .vIfaceNil | .vMap _ _ _ _, .vIface _
  | .vArr _ _, .vInt _ | .vArr _ _, .vStr _ | .vArr _ _, .vBool _ | .vArr _ _, .vStruct _
  | .vArr _ _, .vPtrNil _ | .vArr _ _, .vPtr _ _ _ | .vArr _ _, .vSliceNil _
  | .vArr _ _, .vSlice _ _ _ | .vArr _ _, .vMapNil _ _ | .vArr _ _, .vMap _ _ _ _
  | .vArr _ _, .vIfaceNil | .vArr _ _, .vIface _
  | .vIfaceNil, .vInt _ | .vIfaceNil, .vStr _ | .vIfaceNil, .vBool _ | .vIfaceNil, .vStruct _
  | .vIfaceNil, .vPtrNil _ | .vIfaceNil, .vPtr _ _ _ | .vIfaceNil, .vSliceNil _
  | .vIfaceNil, .vSlice _ _ _ | .vIfaceNil, .vMapNil _ _ | .vIfaceNil, .vMap _ _ _ _
  | .vIfaceNil, .vArr _ _ | .vIfaceNil, .vIface _
  | .vIface _, .vInt _ | .vIface _, .vStr _ | .vIface _, .vBool _ | .vIface _, .vStruct _
  | .vIface _, .vPtrNil _ | .vIface _, .vPtr _ _ _ | .vIface _, .vSliceNil _
  | .vIface _, .vSlice _ _ _ | .vIface _, .vMapNil _ _ | .vIface _, .vMap _ _ _ _
  | .vIface _, .vArr _ _ | .vIface _, .vIfaceNil =>
    isFalse (by intro h; exact Value.noConfusion h)
termination_by structural a b => a

def decValueFields : (a b : List (String × Value)) → Decidable (a = b)
  | [], [] => isTrue rfl
  | [], _ :: _ => isFalse (by intro h; exact absurd h (by simp))
  | _ :: _, [] => isFalse (by intro h; exact absurd h (by simp))
  | (n₁, v₁) :: r₁, (n₂, v₂) :: r₂ =>
    match decEq n₁ n₂, decValue v₁ v₂, decValueFields r₁ r₂ with
    | isTrue h₁, isTrue h₂, isTrue h₃ => isTrue (by rw [h₁, h₂, h₃])
    | isFalse h, _, _ => isFalse (by intro h₂; injection h₂ with hh _; injection hh; contradiction)
    | _, isFalse h, _ => isFalse (by intro h₂; injection h₂ with hh _; injection hh; contradiction)
    | _, _, isFalse h => isFalse (by intro h₂; injection h₂; contradiction)
termination_by structural a b => a

def decValueList : (a b : List Value) → Decidable (a = b)
  | [], [] => isTrue rfl
  | [], _ :: _ => isFalse (by intro h; exact absurd h (by simp))
  | _ :: _, [] => isFalse (by intro h; exact absurd h (by simp))
  | v₁ :: r₁, v₂ :: r₂ =>
    match decValue v₁ v₂, decValueList r₁ r₂ with
    | isTrue h₁, isTrue h₂ => isTrue (by rw [h₁, h₂])
    | isFalse h, _ => isFalse (by intro h₂; injection h₂; contradiction)
    | _, isFalse h => isFalse (by intro h₂; injection h₂; contradiction)
termination_by structural a b => a

def decValueEntries : (a b : List (Value × Value)) → Decidable (a = b)
  | [], [] => isTrue rfl
  | [], _ :: _ => isFalse (by intro h; exact absurd h (by simp))
  | _ :: _, [] => isFalse (by intro h; exact absurd h (by simp))
  | (k₁, v₁) :: r₁, (k₂, v₂) :: r₂ =>
    match decValue k₁ k₂, decValue v₁ v₂, decValueEntries r₁ r₂ with
    | isTrue h₁, isTrue h₂, isTrue h₃ => isTrue (by rw [h₁, h₂, h₃])
    | isFalse h, _, _ => isFalse (by intro h₂; injection h₂ with hh _; injection hh; contradiction)
    | _, isFalse h, _ => isFalse (by intro h₂; injection h₂ with hh _; injection hh; contradiction)
    | _, _, isFalse h => isFalse (by intro h₂; injection h₂; contradiction)
termination_by structural a b => a

end

instance : DecidableEq Value := decValue

/-- The result of Go's `reflect.Value.Interface()` / an `any` value:
`none` is the nil interface. -/
abbrev GoAny := Option Value

mutual

/-- The Go runtime type of a modelled value (`reflect.Value.Type()` /
`reflect.Value.Kind()` combined).  For a struct field the stored value's
type is its declared type, since interface-typed fields are stored
wrapped in `vIface`/`vIfaceNil`. -/
def typeOf : Value → Ty
  | .vInt _ => .int
  | .vStr _ => .str
  | .vBool _ => .bool
  | .vStruct fs => .struct (typeOfFields fs)
  | .vPtrNil t => .ptr t
  | .vPtr t _ _ => .ptr t
  | .vSliceNil t => .slice t
  | .vSlice t _ _ => .slice t
  | .vMapNil k v => .tmap k v
  | .vMap k v _ _ => .tmap k v
  | .vArr t es => .array es.length t
  | .vIfaceNil => .iface
  | .vIface _ => .iface

def typeOfFields : List (String × Value) → List (String × Ty)
  | [] => []
  | (n, v) :: fs => (n, typeOf v) :: typeOfFields fs

end

mutual

/-- The zero value of a Go type (what `var x T` / `reflect.New(T).Elem()`
yields). -/
def zeroOf : Ty → Value
  | .int => .vInt 0
  | .str => .vStr ""
  | .bool => .vBool false
  | .struct fts => .vStruct (zeroOfFields fts)
  | .ptr t => .vPtrNil t
  | .slice t => .vSliceNil t
  | .tmap k v => .vMapNil k v
  | .array n t => .vArr t (List.replicate n (zeroOf t))
  | .iface => .vIfaceNil

def zeroOfFields : List (String × Ty) → List (String × Value)
  | [] => []
  | (n, t) :: fts => (n, zeroOf t) :: zeroOfFields fts

end

mutual

/-- Go's `reflect.Value.IsZero`: numeric/string/bool compare with the zero
literal, pointers/slices/maps/interfaces are zero iff nil, structs and
arrays are zero iff every component is. -/
def isZero : Value → Bool
  | .vInt i => i == 0
  | .vStr s => s == ""
  | .vBool b => b == false
  | .vStruct fs => fieldsAllZero fs
  | .vPtrNil _ => true
  | .vPtr _ _ _ => false
  | .vSliceNil _ => true
  | .vSlice _ _ _ => false
  | .vMapNil _ _ => true
  | .vMap _ _ _ _ => false
  | .vArr _ es => elemsAllZero es
  | .vIfaceNil => true
  | .vIface _ => false

def fieldsAllZero : List (String × Value) → Bool
  | [] => true
  | (_, v) :: fs => isZero v && fieldsAllZero fs

def elemsAllZero : List Value → Bool
  | [] => true
  | v :: es => isZero v && elemsAllZero es

end

/-- Go's `reflect.ValueOf` applied to a value passed as `any` (or through a
generic parameter): interfaces auto-flatten, so the dynamic value inside an
interface wrapper is what reflect sees; `reflect.ValueOf(nil)` is the
invalid zero `reflect.Value`, modelled as `none`. -/
def dynValue : Value → Option Value
  | .vIfaceNil => none
  | .vIface x => dynValue x
  | v => some v

/-- Go's `Type.AssignableTo` restricted to the model's structural types:
identical types are mutually assignable, and every type is assignable to
the empty interface (`any`). -/
def assignableTo (vt ft : Ty) : Bool :=
  vt = ft || ft = Ty.iface

/-- Storing a dynamic value into a field of declared type `ft`
(`reflect.Value.Set` after a successful assignability check): storing into
an interface-typed destination boxes the value. -/
def convertAssign (ft : Ty) (dv : Value) : Value :=
  if ft = Ty.iface then .vIface dv else dv

/-- Go's `strings.Split(s, ".")` (the separator is the single dot and is
never empty, so the Go corner cases for empty separators do not arise). -/
def splitDotAux : List Char → List Char → List String
  | [], acc => [String.mk acc.reverse]
  | c :: cs, acc =>
    if c = '.' then String.mk acc.reverse :: splitDotAux cs []
    else splitDotAux cs (c :: acc)

def splitDot (s : String) : List String := splitDotAux s.data []

/-- The field-search loop shared by the recursive helpers: scan the struct's
fields in declaration order for the first exact, case-sensitive name match
and return its value. -/
def findField : List (String × Value) → String → Option Value
  | [], _ => none
  | (n, v) :: fs, target => if n = target then some v else findField fs target

/-- Like `findField` but also returns the index of the matching field, used
where the loop mutates the found field in place. -/
def findFieldIdx : List (String × Value) → String → Option (Nat × Value)
  | [], _ => none
  | (n, v) :: fs, target =>
    if n = target then some (0, v)
    else (findFieldIdx fs target).map (fun iv => (iv.1 + 1, iv.2))

/-- `getNestedFieldRecursive` of struct.go: searches the current struct for
the segment's field; at the last segment returns `field.Interface()`, at an
intermediate segment navigates on only when the field's value is itself a
struct (a pointer-to-struct field is not dereferenced), else fails. -/
def getNestedFieldRecursive : List (String × Value) → List String → GoAny × Bool
  | _, [] => (none, false)
  | fields, p :: rest =>
    match findField fields p with
    | none => (none, false)
    | some fv =>
      match rest with
      | [] => (dynValue fv, true)
      | _ :: _ =>
        match fv with
        | .vStruct inner => getNestedFieldRecursive inner rest
        | _ => (none, false)

/-- `hasNestedFieldRecursive` of struct.go: same traversal as
`getNestedFieldRecursive`, returning only the found flag. -/
def hasNestedFieldRecursive : List (String × Value) → List String → Bool
  | _, [] => false
  | fields, p :: rest =>
    match findField fields p with
    | none => false
    | some fv =>
      match rest with
      | [] => true
      | _ :: _ =>
        match fv with
        | .vStruct inner => hasNestedFieldRecursive inner rest
        | _ => false

/-- The distinct error returns of `Set`/`setNestedFieldRecursive`, one
constructor per `fmt.Errorf` site, carrying what the message interpolates. -/
inductive SetErr : Type where
  | nonStructTarget : SetErr
  | emptyPath : SetErr
  | typeMismatch : String → Ty → Ty → SetErr
  | notSettable : String → SetErr
  | notStructNav : String → SetErr
  | notFound : String → SetErr
  deriving DecidableEq

/-- Outcome of a mutation call: Go `nil` error, a descriptive error, or a
reflect panic (`fault`). -/
inductive SetOutcome : Type where
  | success : SetOutcome
  | failure : SetErr → SetOutcome
  | fault : SetOutcome
  deriving DecidableEq

/-- `setNestedFieldRecursive` of struct.go.  Returns the state of the
struct's fields after the call together with the outcome; every error
return in the source happens before any write, so the fields come back
unchanged on everything but success.  `canSet` is the addressability of the
struct (`reflect.Value.CanSet` of its fields): true when the call chain
started from a pointer.  A fault is a reflect panic: `reflect.Value.Type`
on the zero `Value` (the replacement value was nil), or
`reflect.Value.Set` on an unaddressable field. -/
def setNestedFieldRecursive (canSet : Bool) :
    List (String × Value) → List String → Value → List (String × Value) × SetOutcome
  | fields, [], _ => (fields, .failure .emptyPath)
  | fields, p :: rest, value =>
    match findFieldIdx fields p with
    | none => (fields, .failure (.notFound p))
    | some (i, fv) =>
      match rest with
      | [] =>
        match dynValue value with
        | none => (fields, .fault)
        | some dv =>
          if assignableTo (typeOf dv) (typeOf fv) then
            if canSet then (fields.set i (p, convertAssign (typeOf fv) dv), .success)
            else (fields, .fault)
          else (fields, .failure (.typeMismatch p (typeOf dv) (typeOf fv)))
      | _ :: _ =>
        match fv with
        | .vStruct inner =>
          if canSet then
            match setNestedFieldRecursive canSet inner rest value with
            | (inner', .success) => (fields.set i (p, .vStruct inner'), .success)
            | (_, out) => (fields, out)
          else (fields, .failure (.notSettable p))
        | _ => (fields, .failure (.notStructNav p))

/-- `Get` of struct.go: dereference a pointer argument, fail on a non-struct,
then resolve the dot-separated path. -/
def Get (obj : Value) (fieldName : String) : GoAny × Bool :=
  match dynValue obj with
  | none => (none, false)
  | some v =>
    match v with
    | .vStruct fields => getNestedFieldRecursive fields (splitDot fieldName)
    | .vPtr _ _ (.vStruct fields) => getNestedFieldRecursive fields (splitDot fieldName)
    | _ => (none, false)

/-- `GetOrDefault` of struct.go. -/
def GetOrDefault (obj : Value) (fieldName : String) (defaultValue : GoAny) : GoAny :=
  match Get obj fieldName with
  | (_, false) => defaultValue
  | (value, true) => value

/-- `Has` of struct.go: same shape as `Get` with the boolean traversal. -/
def Has (obj : Value) (fieldName : String) : Bool :=
  match dynValue obj with
  | none => false
  | some v =>
    match v with
    | .vStruct fields => hasNestedFieldRecursive fields (splitDot fieldName)
    | .vPtr _ _ (.vStruct fields) => hasNestedFieldRecursive fields (splitDot fieldName)
    | _ => false

/-- `Set` of struct.go.  The first component is the state of the target
record (the pointee for a pointer argument) after the call; mutation
reaches the caller's record only when the argument was a pointer. -/
def Set (obj : Value) (fieldName : String) (value : Value) : Value × SetOutcome :=
  match dynValue obj with
  | none => (obj, .failure .nonStructTarget)
  | some v =>
    match v with
    | .vStruct fields =>
      let r := setNestedFieldRecursive false fields (splitDot fieldName) value
      (.vStruct r.1, r.2)
    | .vPtr _ _ (.vStruct fields) =>
      let r := setNestedFieldRecursive true fields (splitDot fieldName) value
      (.vStruct r.1, r.2)
    | _ => (v, .failure .nonStructTarget)

/-- The field loop of `ToMap`: emit, in declaration order, an entry per
valid, non-zero, interface-able field (every modelled field is exported, so
`IsValid` and `CanInterface` hold), valued `field.Interface()`. -/
def toMapFields : List (String × Value) → List (String × GoAny)
  | [] => []
  | (n, v) :: fs =>
    if isZero v then toMapFields fs
    else (n, dynValue v) :: toMapFields fs

/-- `ToMap` of struct.go: dereference a pointer argument, empty result for a
non-struct, else the sparse name-to-value mapping (zero-valued fields
omitted).  Field names are distinct in a Go struct type, so the association
list in declaration order is the built map. -/
def ToMap (obj : Value) : List (String × GoAny) :=
  match dynValue obj with
  | none => []
  | some v =>
    match v with
    | .vStruct fields => toMapFields fields
    | .vPtr _ _ (.vStruct fields) => toMapFields fields
    | _ => []

/-- Go map indexing `data[name]` for the input of `FromMap` (a Go map has
distinct keys, so first-match lookup on the association list is map
lookup). -/
def lookupData : List (String × Value) → String → Option Value
  | [], _ => none
  | (k, v) :: ds, name => if k = name then some v else lookupData ds name

/-- Result of `FromMap`: the built record with the success flag, or a
reflect panic (`fault`). -/
inductive FromMapResult : Type where
  | ok : Value → Bool → FromMapResult
  | fault : FromMapResult
  deriving DecidableEq

/-- The field loop of `FromMap`: each declared field is populated from a
matching, runtime-assignable mapping entry and otherwise keeps its zero
value; a nil entry value under a matching key makes
`reflect.ValueOf(value).Type()` panic (`none`). -/
def fromMapFields : List (String × Ty) → List (String × Value) → Option (List (String × Value))
  | [], _ => some []
  | (n, ft) :: rest, data =>
    match lookupData data n with
    | none => (fromMapFields rest data).map (fun fs => (n, zeroOf ft) :: fs)
    | some value =>
      match dynValue value with
      | none => none
      | some dv =>
        let fv := if assignableTo (typeOf dv) ft then convertAssign ft dv else zeroOf ft
        (fromMapFields rest data).map (fun fs => (n, fv) :: fs)

/-- `FromMap` of struct.go: a non-struct target type yields the zero value
and `false`; a struct target starts from the zero record and populates
matching assignable fields, reporting `true`. -/
def FromMap (t : Ty) (data : List (String × Value)) : FromMapResult :=
  match t with
  | .struct fts =>
    match fromMapFields fts data with
    | some fields => .ok (.vStruct fields) true
    | none => .fault
  | _ => .ok (zeroOf t) false

/-- The field loop of `Pick`: the new record starts zero-valued and the
named fields are copied over (stored field values keep their declared type,
so the untouched fields hold `zeroOf` their declared type). -/
def pickFields (sel : List String) : List (String × Value) → List (String × Value)
  | [] => []
  | (n, v) :: fs =>
    (n, if n ∈ sel then v else zeroOf (typeOf v)) :: pickFields sel fs

/-- The field loop of `Omit`: complement of `pickFields`. -/
def omitFields (sel : List String) : List (String × Value) → List (String × Value)
  | [] => []
  | (n, v) :: fs =>
    (n, if n ∈ sel then zeroOf (typeOf v) else v) :: omitFields sel fs

/-- `Pick` of struct.go.  `none` models the panic of the final generic type
assertion `newVal.Interface().(T)` when the argument is a (dereferenced)
pointer to a struct, since `T` is then a pointer type while `newVal` is a
struct; a non-struct argument returns the zero value of its type. -/
def Pick (obj : Value) (sel : List String) : Option Value :=
  match dynValue obj with
  | none => some obj
  | some v =>
    match v with
    | .vStruct fields => some (.vStruct (pickFields sel fields))
    | .vPtr _ _ (.vStruct _) => none
    | _ => some (zeroOf (typeOf v))

/-- `Omit` of struct.go, with the same shape as `Pick`. -/
def Omit (obj : Value) (sel : List String) : Option Value :=
  match dynValue obj with
  | none => some obj
  | some v =>
    match v with
    | .vStruct fields => some (.vStruct (omitFields sel fields))
    | .vPtr _ _ (.vStruct _) => none
    | _ => some (zeroOf (typeOf v))

/-- `resultVal.FieldByName(name).Set(field)` of `Merge` for records: replace
the value of the first field with the matching name.  (On a missing name or
a non-struct accumulator Go's `FieldByName`/`Set` would panic; that cannot
happen for the same-type records the claims quantify over, and the model
leaves the accumulator unchanged there.) -/
def setFieldByName : List (String × Value) → String → Value → List (String × Value)
  | [], _, _ => []
  | (n, v) :: fs, name, newV =>
    if n = name then (n, newV) :: fs
    else (n, v) :: setFieldByName fs name newV

/-- The inner field loop of `Merge`: copy every non-zero field of the next
record over the accumulator, by field name. -/
def mergeFieldsInto (result : Value) : List (String × Value) → Value
  | [] => result
  | (n, fv) :: fs =>
    if isZero fv then mergeFieldsInto result fs
    else
      match result with
      | .vStruct rfields => mergeFieldsInto (.vStruct (setFieldByName rfields n fv)) fs
      | _ => mergeFieldsInto result fs

/-- One iteration of `Merge`'s outer loop: dereference a pointer input,
skip a non-struct input (`continue`), else merge its fields into the
accumulator. -/
def mergeOne (result next : Value) : Value :=
  match dynValue next with
  | none => result
  | some v =>
    match v with
    | .vStruct fields => mergeFieldsInto result fields
    | .vPtr _ _ (.vStruct fields) => mergeFieldsInto result fields
    | _ => result

/-- `Merge` of struct.go.  `t` is the compile-time type parameter `T`,
needed for the zero record of the empty call. -/
def Merge (t : Ty) (structs : List Value) : Value :=
  match structs with
  | [] => zeroOf t
  | [s] => s
  | s :: rest => rest.foldl mergeOne s

mutual

/-- `deepCopyValue` of the clone file: structural recursion over the
value's runtime shape.  Nil pointers/slices/maps/interfaces come back as
fresh nil values (`reflect.New(typ).Elem()`); non-nil ones are rebuilt
around freshly allocated backing storage (`reflect.New`,
`reflect.MakeSlice`, `reflect.MakeMap`), modelled by consuming the `fresh`
address counter; structs and arrays recurse componentwise; primitives are
copied by value. -/
def deepCopyValue : Nat → Value → Value × Nat
  | fresh, .vInt i => (.vInt i, fresh)
  | fresh, .vStr s => (.vStr s, fresh)
  | fresh, .vBool b => (.vBool b, fresh)
  | fresh, .vStruct fs =>
    let r := deepCopyFields fresh fs
    (.vStruct r.1, r.2)
  | fresh, .vPtrNil t => (.vPtrNil t, fresh)
  | fresh, .vPtr t _ p =>
    let r := deepCopyValue fresh p
    (.vPtr t r.2 r.1, r.2 + 1)
  | fresh, .vSliceNil t => (.vSliceNil t, fresh)
  | fresh, .vSlice t _ es =>
    let r := deepCopyList fresh es
    (.vSlice t r.2 r.1, r.2 + 1)
  | fresh, .vMapNil k v => (.vMapNil k v, fresh)
  | fresh, .vMap k v _ entries =>
    let r := deepCopyEntries fresh entries
    (.vMap k v r.2 r.1, r.2 + 1)
  | fresh, .vArr t es =>
    let r := deepCopyList fresh es
    (.vArr t r.1, r.2)
  | fresh, .vIfaceNil => (.vIfaceNil, fresh)
  | fresh, .vIface x =>
    let r := deepCopyValue fresh x
    (.vIface r.1, r.2)

def deepCopyFields : Nat → List (String × Value) → List (String × Value) × Nat
  | fresh, [] => ([], fresh)
  | fresh, (n, v) :: fs =>
    let r := deepCopyValue fresh v
    let rr := deepCopyFields r.2 fs
    ((n, r.1) :: rr.1, rr.2)

def deepCopyList : Nat → List Value → List Value × Nat
  | fresh, [] => ([], fresh)
  | fresh, v :: es =>
    let r := deepCopyValue fresh v
    let rr := deepCopyList r.2 es
    (r.1 :: rr.1, rr.2)

def deepCopyEntries : Nat → List (Value × Value) → List (Value × Value) × Nat
  | fresh, [] => ([], fresh)
  | fresh, (k, v) :: es =>
    let rk := deepCopyValue fresh k
    let rv := deepCopyValue rk.2 v
    let rr := deepCopyEntries rv.2 es
    ((rk.1, rv.1) :: rr.1, rr.2)

end

/-- `Clone` of the clone file: dereference a pointer argument; a non-struct
target yields the zero value of the argument's type; a struct is deep
copied, and a pointer argument gets a freshly allocated pointer
(`reflect.New`) around the copy. -/
def Clone (fresh : Nat) (obj : Value) : Value × Nat :=
  match dynValue obj with
  | none => (.vIfaceNil, fresh)
  | some v =>
    match v with
    | .vStruct _ => deepCopyValue fresh v
    | .vPtr t _ (.vStruct fs) =>
      let r := deepCopyValue fresh (.vStruct fs)
      (.vPtr t r.2 r.1, r.2 + 1)
    | .vPtr t _ _ => (zeroOf (.ptr t), fresh)
    | .vPtrNil t => (zeroOf (.ptr t), fresh)
    | w => (zeroOf (typeOf w), fresh)

mutual

/-- All backing-storage addresses reachable from a value. -/
def addrs : Value → List Nat
  | .vInt _ => []
  | .vStr _ => []
  | .vBool _ => []
  | .vStruct fs => addrsFields fs
  | .vPtrNil _ => []
  | .vPtr _ a p => a :: addrs p
  | .vSliceNil _ => []
  | .vSlice _ a es => a :: addrsList es
  | .vMapNil _ _ => []
  | .vMap _ _ a es => a :: addrsEntries es
  | .vArr _ es => addrsList es
  | .vIfaceNil => []
  | .vIface x => addrs x

def addrsFields : List (String × Value) → List Nat
  | [] => []
  | (_, v) :: fs => addrs v ++ addrsFields fs

def addrsList : List Value → List Nat
  | [] => []
  | v :: es => addrs v ++ addrsList es

def addrsEntries : List (Value × Value) → List Nat
  | [] => []
  | (k, v) :: es => addrs k ++ addrs v ++ addrsEntries es

end

mutual

/-- Forget the allocation addresses of a value: what `reflect.DeepEqual`
compares (structural equality by value). -/
def erase : Value → Value
  | .vInt i => .vInt i
  | .vStr s => .vStr s
  | .vBool b => .vBool b
  | .vStruct fs => .vStruct (eraseFields fs)
  | .vPtrNil t => .vPtrNil t
  | .vPtr t _ p => .vPtr t 0 (erase p)
  | .vSliceNil t => .vSliceNil t
  | .vSlice t _ es => .vSlice t 0 (eraseList es)
  | .vMapNil k v => .vMapNil k v
  | .vMap k v _ es => .vMap k v 0 (eraseEntries es)
  | .vArr t es => .vArr t (eraseList es)
  | .vIfaceNil => .vIfaceNil
  | .vIface x => .vIface (erase x)

def eraseFields : List (String × Value) → List (String × Value)
  | [] => []
  | (n, v) :: fs => (n, erase v) :: eraseFields fs

def eraseList : List Value → List Value
  | [] => []
  | v :: es => erase v :: eraseList es

def eraseEntries : List (Value × Value) → List (Value × Value)
  | [] => []
  | (k, v) :: es => (erase k, erase v) :: eraseEntries es

end

/-- A write to the mutable backing storage at one address: replace a
pointer's pointee, a slice backing array's element, or a map entry's
value for an existing key. -/
inductive Mutation : Type where
  | setPtr : Value → Mutation
  | setElem : Nat → Value → Mutation
  | setKey : Value → Value → Mutation

/-- Replace a map entry's value at key `k` (first occurrence). -/
def setEntryKey (k u : Value) : List (Value × Value) → List (Value × Value)
  | [] => []
  | (k', v) :: es =>
    if k' = k then (k', u) :: es else (k', v) :: setEntryKey k u es

mutual

/-- Apply the write `m` to the storage cell with address `a`: every node of
the value tree tagged with `a` is an alias of that cell and receives the
write; everything else is traversed unchanged.  Mutating through one alias
is visible exactly at the nodes sharing the address. -/
def applyMut (a : Nat) (m : Mutation) : Value → Value
  | .vInt i => .vInt i
  | .vStr s => .vStr s
  | .vBool b => .vBool b
  | .vStruct fs => .vStruct (applyMutFields a m fs)
  | .vPtrNil t => .vPtrNil t
  | .vPtr t a' p =>
    if a' = a then
      match m with
      | .setPtr u => .vPtr t a' u
      | .setElem _ _ => .vPtr t a' (applyMut a m p)
      | .setKey _ _ => .vPtr t a' (applyMut a m p)
    else .vPtr t a' (applyMut a m p)
  | .vSliceNil t => .vSliceNil t
  | .vSlice t a' es =>
    if a' = a then
      match m with
      | .setElem i u => .vSlice t a' ((applyMutList a m es).set i u)
      | .setPtr _ => .vSlice t a' (applyMutList a m es)
      | .setKey _ _ => .vSlice t a' (applyMutList a m es)
    else .vSlice t a' (applyMutList a m es)
  | .vMapNil k v => .vMapNil k v
  | .vMap k v a' es =>
    if a' = a then
      match m with
      | .setKey key u => .vMap k v a' (setEntryKey key u (applyMutEntries a m es))
      | .setPtr _ => .vMap k v a' (applyMutEntries a m es)
      | .setElem _ _ => .vMap k v a' (applyMutEntries a m es)
    else .vMap k v a' (applyMutEntries a m es)
  | .vArr t es => .vArr t (applyMutList a m es)
  | .vIfaceNil => .vIfaceNil
  | .vIface x => .vIface (applyMut a m x)

def applyMutFields (a : Nat) (m : Mutation) : List (String × Value) → List (String × Value)
  | [] => []
  | (n, v) :: fs => (n, applyMut a m v) :: applyMutFields a m fs

def applyMutList (a : Nat) (m : Mutation) : List Value → List Value
  | [] => []
  | v :: es => applyMut a m v :: applyMutList a m es

def applyMutEntries (a : Nat) (m : Mutation) : List (Value × Value) → List (Value × Value)
  | [] => []
  | (k, v) :: es => (applyMut a m k, applyMut a m v) :: applyMutEntries a m es

end

/-! Specification-side definitions, used only to state claims. -/

/-- Raw path resolution to the terminal field's stored value (keeping the
interface wrapper, hence the declared type): the traversal of
`getNestedFieldRecursive` without the final `Interface()` unboxing.  Used
to state which field a path denotes. -/
def resolveField : List (String × Value) → List String → Option Value
  | _, [] => none
  | fields, p :: rest =>
    match findField fields p with
    | none => none
    | some fv =>
      match rest with
      | [] => some fv
      | _ :: _ =>
        match fv with
        | .vStruct inner => resolveField inner rest
        | _ => none

/-- Modelled from the spec (4.6, FromMap): the value a declared field of
type `ft` receives, given the mapping entry (if any) under the field's
name — a runtime-assignable entry populates the field, anything else
leaves the field at its type's zero value. -/
def fromMapSpecField (ft : Ty) (entry : Option Value) : Value :=
  match entry with
  | none => zeroOf ft
  | some value =>
    match dynValue value with
    | none => zeroOf ft
    | some dv => if assignableTo (typeOf dv) ft then convertAssign ft dv else zeroOf ft

/-- Modelled from the spec (4.8, Merge): the last value in the list that is
non-zero, if any — the claim's "value from the last record in the sequence
whose value for that field is non-zero". -/
def lastNonZeroOpt : List Value → Option Value
  | [] => none
  | v :: vs =>
    match lastNonZeroOpt vs with
    | some w => some w
    | none => if isZero v then none else some v

/-- Map lookup on the association list produced by `ToMap`. -/
def lookupGoAny : List (String × GoAny) → String → Option GoAny
  | [], _ => none
  | (k, v) :: ds, name => if k = name then some v else lookupGoAny ds name

/-! Helper lemmas. -/

theorem dynValue_idem : ∀ v dv : Value, dynValue v = some dv → dynValue dv = some dv
  | .vIfaceNil, _, h => by simp [dynValue] at h
  | .vIface x, dv, h => dynValue_idem x dv h
  | .vInt _, _, h => by cases h; rfl
  | .vStr _, _, h => by cases h; rfl
  | .vBool _, _, h => by cases h; rfl
  | .vStruct _, _, h => by cases h; rfl
  | .vPtrNil _, _, h => by cases h; rfl
  | .vPtr _ _ _, _, h => by cases h; rfl
  | .vSliceNil _, _, h => by cases h; rfl
  | .vSlice _ _ _, _, h => by cases h; rfl
  | .vMapNil _ _, _, h => by cases h; rfl
  | .vMap _ _ _ _, _, h => by cases h; rfl
  | .vArr _ _, _, h => by cases h; rfl

theorem dynValue_convertAssign (ft : Ty) (v dv : Value) (h : dynValue v = some dv) :
    dynValue (convertAssign ft dv) = some dv := by
  unfold convertAssign
  split
  · rw [show dynValue (.vIface dv) = dynValue dv from rfl]
    exact dynValue_idem v dv h
  · exact dynValue_idem v dv h

theorem findField_set_idx (p : String) (w : Value) :
    ∀ (fields : List (String × Value)) (i : Nat) (fv : Value),
      findFieldIdx fields p = some (i, fv) →
      findField (fields.set i (p, w)) p = some w := by
  intro fields
  induction fields with
  | nil => intro i fv h; simp [findFieldIdx] at h
  | cons nv fs ih =>
    obtain ⟨n, v⟩ := nv
    intro i fv h
    by_cases hn : n = p
    · subst hn
      simp [findFieldIdx] at h
      obtain ⟨hi, _⟩ := h
      subst hi
      simp [List.set, findField]
    · rw [show findFieldIdx ((n, v) :: fs) p
          = (findFieldIdx fs p).map (fun iv => (iv.1 + 1, iv.2)) by
        simp [findFieldIdx, hn]] at h
      cases hfs : findFieldIdx fs p with
      | none => rw [hfs] at h; simp at h
      | some iv =>
        obtain ⟨i', fv'⟩ := iv
        rw [hfs] at h
        simp at h
        obtain ⟨hi, hfv⟩ := h
        rw [← hi]
        simp [List.set, findField, hn]
        exact ih i' fv' hfs

theorem setNested_then_get (canSet : Bool) (parts : List String) :
    ∀ (fields fields' : List (String × Value)) (value : Value),
      setNestedFieldRecursive canSet fields parts value = (fields', .success) →
      getNestedFieldRecursive fields' parts = (dynValue value, true) := by
  induction parts with
  | nil =>
    intro fields fields' value h
    simp [setNestedFieldRecursive] at h
  | cons p rest ih =>
    intro fields fields' value h
    rw [setNestedFieldRecursive.eq_def] at h
    cases hidx : findFieldIdx fields p with
    | none => simp only [hidx] at h; simp at h
    | some iv =>
      obtain ⟨i, fv⟩ := iv
      cases rest with
      | nil =>
        cases hdv : dynValue value with
        | none => simp only [hidx, hdv] at h; simp at h
        | some dv =>
          by_cases hass : assignableTo (typeOf dv) (typeOf fv) = true
          · cases canSet with
            | false => simp only [hidx, hdv, hass] at h; simp at h
            | true =>
              simp only [hidx, hdv, hass, if_true, if_pos] at h
              simp at h
              subst h
              rw [getNestedFieldRecursive.eq_def]
              simp only [findField_set_idx p _ fields i fv hidx]
              rw [dynValue_convertAssign (typeOf fv) value dv hdv]
          · simp only [hidx, hdv, if_neg hass] at h
            simp at h
      | cons q qs =>
        cases fv with
        | vStruct inner =>
          cases canSet with
          | false => simp only [hidx] at h; simp at h
          | true =>
            cases hrec : setNestedFieldRecursive true inner (q :: qs) value with
            | mk inner' out =>
              simp only [hidx, hrec] at h
              cases out with
              | success =>
                simp at h
                subst h
                rw [getNestedFieldRecursive.eq_def]
                simp only [findField_set_idx p _ fields i (.vStruct inner) hidx]
                exact ih inner inner' value hrec
              | failure e => simp at h
              | fault => simp at h
        | vInt _ => simp only [hidx] at h; simp at h
        | vStr _ => simp only [hidx] at h; simp at h
        | vBool _ => simp only [hidx] at h; simp at h
        | vPtrNil _ => simp only [hidx] at h; simp at h
        | vPtr _ _ _ => simp only [hidx] at h; simp at h
        | vSliceNil _ => simp only [hidx] at h; simp at h
        | vSlice _ _ _ => simp only [hidx] at h; simp at h
        | vMapNil _ _ => simp only [hidx] at h; simp at h
        | vMap _ _ _ _ => simp only [hidx] at h; simp at h
        | vArr _ _ => simp only [hidx] at h; simp at h
        | vIfaceNil => simp only [hidx] at h; simp at h
        | vIface _ => simp only [hidx] at h; simp at h

/-- C1: round-trip identity of mutation and retrieval — for every record
`r` behind a mutable reference, path string `p` and replacement value `v`,
if `Set(&r, p, v)` reports success then `Get` on the updated record at the
same path returns `(v, true)`; the value component is `v`'s identity as a
Go `any` (`dynValue v`). -/
theorem set_get_roundtrip (t : Ty) (a : Nat) (r : Value) (p : String) (v r' : Value)
    (h : Set (.vPtr t a r) p v = (r', .success)) :
    Get r' p = (dynValue v, true) := by
  unfold Set at h
  rw [show dynValue (.vPtr t a r) = some (.vPtr t a r) from rfl] at h
  cases r with
  | vStruct fields =>
    simp only at h
    cases hset : setNestedFieldRecursive true fields (splitDot p) v with
    | mk fields' out =>
      rw [hset] at h
      simp at h
      obtain ⟨hr, hout⟩ := h
      subst hr hout
      unfold Get
      rw [show dynValue (Value.vStruct fields') = some (.vStruct fields') from rfl]
      simp only
      exact setNested_then_get true (splitDot p) fields fields' v hset
  | vInt _ => simp at h
  | vStr _ => simp at h
  | vBool _ => simp at h
  | vPtrNil _ => simp at h
  | vPtr _ _ _ => simp at h
  | vSliceNil _ => simp at h
  | vSlice _ _ _ => simp at h
  | vMapNil _ _ => simp at h
  | vMap _ _ _ _ => simp at h
  | vArr _ _ => simp at h
  | vIfaceNil => simp at h
  | vIface _ => simp at h

/-- Witness for C1 at a concrete record, path and value. -/
theorem set_get_roundtrip_witness :
    Get (.vStruct [("Age", .vInt 30)]) "Age" = (dynValue (.vInt 30), true) :=
  set_get_roundtrip (.struct [("Age", .int)]) 7 (.vStruct [("Age", .vInt 25)])
    "Age" (.vInt 30) (.vStruct [("Age", .vInt 30)]) (by decide)

theorem hasNested_eq_getNested (parts : List String) :
    ∀ fields, hasNestedFieldRecursive fields parts = (getNestedFieldRecursive fields parts).2 := by
  induction parts with
  | nil => intro fields; rfl
  | cons p rest ih =>
    intro fields
    rw [hasNestedFieldRecursive.eq_def, getNestedFieldRecursive.eq_def]
    simp only []
    cases hff : findField fields p with
    | none => rfl
    | some fv =>
      cases rest with
      | nil => rfl
      | cons q qs =>
        cases fv with
        | vStruct inner => exact ih inner
        | vInt _ => rfl
        | vStr _ => rfl
        | vBool _ => rfl
        | vPtrNil _ => rfl
        | vPtr _ _ _ => rfl
        | vSliceNil _ => rfl
        | vSlice _ _ _ => rfl
        | vMapNil _ _ => rfl
        | vMap _ _ _ _ => rfl
        | vArr _ _ => rfl
        | vIfaceNil => rfl
        | vIface _ => rfl

/-- C7: Has/Get consistency — for every value `obj` (record or otherwise)
and every path string `p`, `Has(obj, p)` equals the found flag of
`Get(obj, p)`. -/
theorem has_eq_get_found (obj : Value) (p : String) : Has obj p = (Get obj p).2 := by
  unfold Has Get
  cases dynValue obj with
  | none => rfl
  | some v =>
    cases v with
    | vStruct fields => simp only; exact hasNested_eq_getNested (splitDot p) fields
    | vPtr t a q =>
      cases q with
      | vStruct fields => simp only; exact hasNested_eq_getNested (splitDot p) fields
      | vInt _ => rfl
      | vStr _ => rfl
      | vBool _ => rfl
      | vPtrNil _ => rfl
      | vPtr _ _ _ => rfl
      | vSliceNil _ => rfl
      | vSlice _ _ _ => rfl
      | vMapNil _ _ => rfl
      | vMap _ _ _ _ => rfl
      | vArr _ _ => rfl
      | vIfaceNil => rfl
      | vIface _ => rfl
    | vInt _ => rfl
    | vStr _ => rfl
    | vBool _ => rfl
    | vPtrNil _ => rfl
    | vSliceNil _ => rfl
    | vSlice _ _ _ => rfl
    | vMapNil _ _ => rfl
    | vMap _ _ _ _ => rfl
    | vArr _ _ => rfl
    | vIfaceNil => rfl
    | vIface _ => rfl

theorem findField_eq_idx (p : String) : ∀ (fields : List (String × Value)),
    findField fields p = (findFieldIdx fields p).map Prod.snd := by
  intro fields
  induction fields with
  | nil => rfl
  | cons nv fs ih =>
    obtain ⟨n, v⟩ := nv
    by_cases hn : n = p
    · simp [findField, findFieldIdx, hn]
    · simp only [findField, findFieldIdx, if_neg hn, ih]
      cases findFieldIdx fs p <;> rfl

theorem setNested_mismatch :
    ∀ (parts : List String) (last : String) (fields : List (String × Value)) (v dv fv : Value),
      dynValue v = some dv →
      resolveField fields (parts ++ [last]) = some fv →
      assignableTo (typeOf dv) (typeOf fv) = false →
      setNestedFieldRecursive true fields (parts ++ [last]) v
        = (fields, .failure (.typeMismatch last (typeOf dv) (typeOf fv))) := by
  intro parts
  induction parts with
  | nil =>
    intro last fields v dv fv hv hres hmm
    rw [show ([] : List String) ++ [last] = [last] from rfl] at hres ⊢
    rw [resolveField.eq_def] at hres
    simp only [] at hres
    cases hff : findField fields last with
    | none => rw [hff] at hres; simp at hres
    | some fv0 =>
      rw [hff] at hres
      simp at hres
      subst hres
      rw [findField_eq_idx] at hff
      cases hidx : findFieldIdx fields last with
      | none => rw [hidx] at hff; simp at hff
      | some iv =>
        obtain ⟨i, fv1⟩ := iv
        rw [hidx] at hff
        simp at hff
        subst hff
        rw [setNestedFieldRecursive.eq_def]
        simp only [] 
        simp only [hidx, hv]
        simp [hmm]
  | cons q qs ih =>
    intro last fields v dv fv hv hres hmm
    rw [show (q :: qs) ++ [last] = q :: (qs ++ [last]) from rfl] at hres ⊢
    obtain ⟨r₀, rs, hr⟩ : ∃ r₀ rs, qs ++ [last] = r₀ :: rs := by
      cases qs with
      | nil => exact ⟨last, [], rfl⟩
      | cons x xs => exact ⟨x, xs ++ [last], rfl⟩
    rw [resolveField.eq_def] at hres
    simp only [] at hres
    cases hff : findField fields q with
    | none => rw [hff] at hres; simp at hres
    | some fv0 =>
      rw [hff] at hres
      rw [hr] at hres
      simp only at hres
      cases fv0 with
      | vStruct inner =>
        rw [← hr] at hres
        rw [findField_eq_idx] at hff
        cases hidx : findFieldIdx fields q with
        | none => rw [hidx] at hff; simp at hff
        | some iv =>
          obtain ⟨i, fv1⟩ := iv
          rw [hidx] at hff
          simp at hff
          subst hff
          rw [setNestedFieldRecursive.eq_def]
          simp only []
          simp only [hidx]
          rw [hr]
          simp only []
          rw [← hr]
          rw [ih last inner v dv fv hv hres hmm]
          simp
      | vInt _ => simp at hres
      | vStr _ => simp at hres
      | vBool _ => simp at hres
      | vPtrNil _ => simp at hres
      | vPtr _ _ _ => simp at hres
      | vSliceNil _ => simp at hres
      | vSlice _ _ _ => simp at hres
      | vMapNil _ _ => simp at hres
      | vMap _ _ _ _ => simp at hres
      | vArr _ _ => simp at hres
      | vIfaceNil => simp at hres
      | vIface _ => simp at hres

/-- C6: Set type-mismatch rejection with atomicity — for a record behind a
mutable reference and a path resolving to a terminal field whose declared
type the replacement value's runtime type is not assignable to, Set returns
the descriptive failure naming the terminal field and both types, and the
record's post-state equals its pre-state (entirely unchanged). -/
theorem set_type_mismatch (t : Ty) (a : Nat) (fields : List (String × Value)) (p : String)
    (parts : List String) (last : String) (v dv fv : Value)
    (hsplit : splitDot p = parts ++ [last])
    (hv : dynValue v = some dv)
    (hres : resolveField fields (parts ++ [last]) = some fv)
    (hmm : assignableTo (typeOf dv) (typeOf fv) = false) :
    Set (.vPtr t a (.vStruct fields)) p v
      = (.vStruct fields, .failure (.typeMismatch last (typeOf dv) (typeOf fv))) := by
  unfold Set
  rw [show dynValue (.vPtr t a (.vStruct fields)) = some (.vPtr t a (.vStruct fields)) from rfl]
  simp only
  rw [hsplit, setNested_mismatch parts last fields v dv fv hv hres hmm]

/-- Witness for C6 at the spec's own example: Set(&User{Age:25}, "Age", "thirty"). -/
theorem set_type_mismatch_witness :
    Set (.vPtr (.struct [("Age", .int)]) 3 (.vStruct [("Age", .vInt 25)])) "Age" (.vStr "thirty")
      = (.vStruct [("Age", .vInt 25)], .failure (.typeMismatch "Age" .str .int)) :=
  set_type_mismatch (.struct [("Age", .int)]) 3 [("Age", .vInt 25)] "Age" [] "Age"
    (.vStr "thirty") (.vStr "thirty") (.vInt 25) (by decide) (by decide) (by decide) (by decide)

theorem setNested_no_fault (parts : List String) :
    ∀ (fields : List (String × Value)) (v : Value), dynValue v ≠ none →
      (setNestedFieldRecursive true fields parts v).2 ≠ .fault := by
  induction parts with
  | nil => intro fields v hv; simp [setNestedFieldRecursive]
  | cons p rest ih =>
    intro fields v hv
    rw [setNestedFieldRecursive.eq_def]
    simp only []
    cases hidx : findFieldIdx fields p with
    | none => simp [hidx]
    | some iv =>
      obtain ⟨i, fv⟩ := iv
      cases rest with
      | nil =>
        cases hdv : dynValue v with
        | none => exact absurd hdv hv
        | some dv =>
          by_cases hass : assignableTo (typeOf dv) (typeOf fv) = true
          · simp [hidx, hdv, hass]
          · simp [hidx, hdv, hass]
      | cons q qs =>
        cases fv with
        | vStruct inner =>
          cases hrec : setNestedFieldRecursive true inner (q :: qs) v with
          | mk inner' out =>
            cases out with
            | success => simp [hidx, hrec]
            | failure e =>
              have := ih inner v hv
              rw [hrec] at this
              simp at this
              simp [hidx, hrec]
            | fault =>
              have := ih inner v hv
              rw [hrec] at this
              simp at this
        | vInt _ => simp [hidx]
        | vStr _ => simp [hidx]
        | vBool _ => simp [hidx]
        | vPtrNil _ => simp [hidx]
        | vPtr _ _ _ => simp [hidx]
        | vSliceNil _ => simp [hidx]
        | vSlice _ _ _ => simp [hidx]
        | vMapNil _ _ => simp [hidx]
        | vMap _ _ _ _ => simp [hidx]
        | vArr _ _ => simp [hidx]
        | vIfaceNil => simp [hidx]
        | vIface _ => simp [hidx]

/-- C10 counterexample: even with a pointer-to-record argument, Set can
fault — a nil replacement value panics at `reflect.ValueOf(value).Type()`
before the addressability question arises, so "Set always returns either
success or a descriptive error" fails as stated. -/
theorem set_pointer_nil_fault :
    Set (.vPtr (.struct [("Name", .str)]) 0 (.vStruct [("Name", .vStr "")])) "Name" .vIfaceNil
      = (.vStruct [("Name", .vStr "")], .fault) := by decide

/-- C10 (amended): a record passed by value with a single-segment path
naming an existing field and an assignable, non-nil replacement value
reaches the terminal assignment on a non-addressable field and faults
(conjunct one); with a pointer-to-record argument and a non-nil
replacement value the fault branches are unreachable and Set returns
success or a descriptive error (conjunct two). -/
theorem set_addressability :
    (∀ (fields : List (String × Value)) (s : String) (v dv fv : Value) (i : Nat),
        splitDot s = [s] →
        findFieldIdx fields s = some (i, fv) →
        dynValue v = some dv →
        assignableTo (typeOf dv) (typeOf fv) = true →
        Set (.vStruct fields) s v = (.vStruct fields, .fault))
    ∧ (∀ (t : Ty) (a : Nat) (r : Value) (p : String) (v : Value),
        dynValue v ≠ none →
        (Set (.vPtr t a r) p v).2 ≠ .fault) := by
  constructor
  · intro fields s v dv fv i hsplit hidx hdv hass
    unfold Set
    rw [show dynValue (.vStruct fields) = some (.vStruct fields) from rfl]
    simp only
    rw [hsplit]
    rw [setNestedFieldRecursive.eq_def]
    simp only []
    simp [hidx, hdv, hass]
  · intro t a r p v hv
    unfold Set
    rw [show dynValue (.vPtr t a r) = some (.vPtr t a r) from rfl]
    cases r with
    | vStruct fields =>
      simp only
      exact setNested_no_fault (splitDot p) fields v hv
    | vInt _ => simp
    | vStr _ => simp
    | vBool _ => simp
    | vPtrNil _ => simp
    | vPtr _ _ _ => simp
    | vSliceNil _ => simp
    | vSlice _ _ _ => simp
    | vMapNil _ _ => simp
    | vMap _ _ _ _ => simp
    | vArr _ _ => simp
    | vIfaceNil => simp
    | vIface _ => simp

/-- Witness for C10 (amended), instantiating both conjuncts at concrete
inputs: a by-value Set faults, a pointer Set with a non-nil value does
not. -/
theorem set_addressability_witness :
    Set (.vStruct [("Age", .vInt 25)]) "Age" (.vInt 30) = (.vStruct [("Age", .vInt 25)], .fault)
    ∧ (Set (.vPtr (.struct [("Age", .int)]) 0 (.vStruct [("Age", .vInt 25)])) "Age" (.vInt 30)).2
        ≠ .fault :=
  ⟨set_addressability.1 [("Age", .vInt 25)] "Age" (.vInt 30) (.vInt 30) (.vInt 25) 0
      (by decide) (by decide) (by decide) (by decide),
   set_addressability.2 (.struct [("Age", .int)]) 0 (.vStruct [("Age", .vInt 25)]) "Age"
      (.vInt 30) (by decide)⟩

/-- C3 counterexample: at a non-terminal segment the code does not
dereference a pointer-to-struct field — Get fails on "A.City" although
field A holds a non-nil reference to a record that does resolve "City"
(second conjunct), where the claim requires `(City value, true)`. -/
theorem get_no_deref_counterexample :
    Get (.vStruct [("A", .vPtr (.struct [("City", .str)]) 0
        (.vStruct [("City", .vStr "NY")]))]) "A.City" = (none, false)
    ∧ Get (.vStruct [("City", .vStr "NY")]) "City" = (some (.vStr "NY"), true) := by
  constructor
  · decide
  · decide

/-- C3 (amended): at a non-terminal path segment, navigation continues only
when the field's value is itself directly a record; a field holding a
reference-to-record (or any other non-record shape) is not dereferenced
and resolution fails with found = false, even though the field exists. -/
theorem get_intermediate_no_deref (fields : List (String × Value)) (p : String)
    (rest : List String) (fv : Value)
    (hne : rest ≠ []) (hfind : findField fields p = some fv) :
    (∀ inner, fv = .vStruct inner →
       getNestedFieldRecursive fields (p :: rest) = getNestedFieldRecursive inner rest)
    ∧ ((∀ inner, fv ≠ .vStruct inner) →
       getNestedFieldRecursive fields (p :: rest) = (none, false)) := by
  obtain ⟨r₀, rs, hr⟩ : ∃ r₀ rs, rest = r₀ :: rs := by
    cases rest with
    | nil => exact absurd rfl hne
    | cons x xs => exact ⟨x, xs, rfl⟩
  subst hr
  constructor
  · intro inner hfv
    subst hfv
    rw [getNestedFieldRecursive.eq_def]
    simp only []
    simp [hfind]
  · intro hnot
    rw [getNestedFieldRecursive.eq_def]
    simp only []
    cases fv with
    | vStruct inner => exact absurd rfl (hnot inner)
    | vInt _ => simp [hfind]
    | vStr _ => simp [hfind]
    | vBool _ => simp [hfind]
    | vPtrNil _ => simp [hfind]
    | vPtr _ _ _ => simp [hfind]
    | vSliceNil _ => simp [hfind]
    | vSlice _ _ _ => simp [hfind]
    | vMapNil _ _ => simp [hfind]
    | vMap _ _ _ _ => simp [hfind]
    | vArr _ _ => simp [hfind]
    | vIfaceNil => simp [hfind]
    | vIface _ => simp [hfind]

/-- Witness for C3 (amended): a pointer-valued intermediate field makes
resolution fail. -/
theorem get_intermediate_no_deref_witness :
    getNestedFieldRecursive
      [("A", .vPtr (.struct [("City", .str)]) 0 (.vStruct [("City", .vStr "NY")]))]
      ["A", "City"] = (none, false) :=
  (get_intermediate_no_deref
    [("A", .vPtr (.struct [("City", .str)]) 0 (.vStruct [("City", .vStr "NY")]))]
    "A" ["City"]
    (.vPtr (.struct [("City", .str)]) 0 (.vStruct [("City", .vStr "NY")]))
    (by decide) (by decide)).2 (fun inner h => Value.noConfusion h)

theorem lookupData_mem : ∀ (data : List (String × Value)) (n : String) (v : Value),
    lookupData data n = some v → (n, v) ∈ data := by
  intro data n v
  induction data with
  | nil => intro h; simp [lookupData] at h
  | cons kv ds ih =>
    obtain ⟨k, w⟩ := kv
    intro h
    by_cases hk : k = n
    · subst hk
      simp [lookupData] at h
      subst h
      exact List.mem_cons_self _ _
    · simp [lookupData, hk] at h
      exact List.mem_cons_of_mem _ (ih h)

theorem fromMapFields_spec (data : List (String × Value))
    (hnn : ∀ kv ∈ data, dynValue kv.2 ≠ none) :
    ∀ (fts : List (String × Ty)),
      fromMapFields fts data
        = some (fts.map (fun nt => (nt.1, fromMapSpecField nt.2 (lookupData data nt.1)))) := by
  intro fts
  induction fts with
  | nil => rfl
  | cons nt rest ih =>
    obtain ⟨n, ft⟩ := nt
    rw [fromMapFields.eq_def]
    simp only []
    cases hlk : lookupData data n with
    | none =>
      rw [ih]
      simp [fromMapSpecField, hlk]
    | some value =>
      have hmem : (n, value) ∈ data := lookupData_mem data n value hlk
      have hdv : dynValue value ≠ none := hnn (n, value) hmem
      cases hdvv : dynValue value with
      | none => exact absurd hdvv hdv
      | some dv =>
        rw [ih]
        simp [fromMapSpecField, hlk, hdvv]

/-- C4 counterexample: a mapping entry holding nil under a key that matches
a declared field makes FromMap panic at `reflect.ValueOf(value).Type()`
instead of reporting success, so "the returned success flag is true for
every input mapping" fails as stated. -/
theorem fromMap_nil_fault :
    FromMap (.struct [("Name", .str)]) [("Name", .vIfaceNil)] = .fault := by decide

/-- C4 (amended): for every target record type and every input mapping
whose values are non-nil, FromMap reports success; each declared field
whose name matches a mapping key with a runtime-assignable value is
populated from that entry, every other field keeps its type's zero value,
and unmatched or non-assignable entries are silently dropped
(`fromMapSpecField` is the spec's field-population rule). -/
theorem fromMap_success (fts : List (String × Ty)) (data : List (String × Value))
    (hnn : ∀ kv ∈ data, dynValue kv.2 ≠ none) :
    FromMap (.struct fts) data
      = .ok (.vStruct (fts.map (fun nt =>
          (nt.1, fromMapSpecField nt.2 (lookupData data nt.1))))) true := by
  unfold FromMap
  simp only []
  rw [fromMapFields_spec data hnn fts]

/-- Witness for C4 (amended) at the spec's "FromMap ignores unknowns"
example: {"Name":"X","Bogus":1} into a record type with Name and Age. -/
theorem fromMap_success_witness :
    FromMap (.struct [("Name", .str), ("Age", .int)])
        [("Name", .vStr "X"), ("Bogus", .vInt 1)]
      = .ok (.vStruct ([("Name", .str), ("Age", .int)].map (fun nt =>
          (nt.1, fromMapSpecField nt.2
            (lookupData [("Name", .vStr "X"), ("Bogus", .vInt 1)] nt.1))))) true :=
  fromMap_success [("Name", .str), ("Age", .int)] [("Name", .vStr "X"), ("Bogus", .vInt 1)]
    (by decide)

theorem pickFields_map (sel : List String) : ∀ fields, pickFields sel fields
    = fields.map (fun nv => (nv.1, if nv.1 ∈ sel then nv.2 else zeroOf (typeOf nv.2))) := by
  intro fields
  induction fields with
  | nil => rfl
  | cons nv fs ih =>
    obtain ⟨n, v⟩ := nv
    simp only [pickFields, ih, List.map]

theorem omitFields_map (sel : List String) : ∀ fields, omitFields sel fields
    = fields.map (fun nv => (nv.1, if nv.1 ∈ sel then zeroOf (typeOf nv.2) else nv.2)) := by
  intro fields
  induction fields with
  | nil => rfl
  | cons nv fs ih =>
    obtain ⟨n, v⟩ := nv
    simp only [omitFields, ih, List.map]

/-- C8: Pick/Omit complementarity — for a record and a name set containing
only declared field names, every declared field keeps its source value in
exactly one of Pick and Omit (Pick iff the name is selected) and holds its
declared type's zero value in the other, so the populated fields of the two
outputs partition the field set. -/
theorem pick_omit_partition (fields : List (String × Value)) (sel : List String)
    (hsub : ∀ n ∈ sel, n ∈ fields.map Prod.fst) :
    ∃ pf omf : List (String × Value),
      Pick (.vStruct fields) sel = some (.vStruct pf)
      ∧ Omit (.vStruct fields) sel = some (.vStruct omf)
      ∧ ∀ (i : Nat) (n : String) (v : Value), fields.get? i = some (n, v) →
          ((n ∈ sel → pf.get? i = some (n, v)
              ∧ omf.get? i = some (n, zeroOf (typeOf v)))
           ∧ (n ∉ sel → omf.get? i = some (n, v)
              ∧ pf.get? i = some (n, zeroOf (typeOf v)))) := by
  refine ⟨pickFields sel fields, omitFields sel fields, rfl, rfl, ?_⟩
  intro i n v hget
  constructor
  · intro hmem
    constructor
    · rw [pickFields_map, List.get?_map, hget]
      simp [hmem]
    · rw [omitFields_map, List.get?_map, hget]
      simp [hmem]
  · intro hmem
    constructor
    · rw [omitFields_map, List.get?_map, hget]
      simp [hmem]
    · rw [pickFields_map, List.get?_map, hget]
      simp [hmem]

/-- Witness for C8 at a concrete record and selection. -/
theorem pick_omit_partition_witness :
    ∃ pf omf : List (String × Value),
      Pick (.vStruct [("Name", .vStr "Alice"), ("Age", .vInt 25)]) ["Name"]
        = some (.vStruct pf)
      ∧ Omit (.vStruct [("Name", .vStr "Alice"), ("Age", .vInt 25)]) ["Name"]
        = some (.vStruct omf)
      ∧ ∀ (i : Nat) (n : String) (v : Value),
          [("Name", Value.vStr "Alice"), ("Age", Value.vInt 25)].get? i = some (n, v) →
          ((n ∈ ["Name"] → pf.get? i = some (n, v)
              ∧ omf.get? i = some (n, zeroOf (typeOf v)))
           ∧ (n ∉ ["Name"] → omf.get? i = some (n, v)
              ∧ pf.get? i = some (n, zeroOf (typeOf v)))) :=
  pick_omit_partition [("Name", .vStr "Alice"), ("Age", .vInt 25)] ["Name"] (by decide)

theorem lookupGoAny_toMapFields_not_mem :
    ∀ (fields : List (String × Value)) (n : String), n ∉ fields.map Prod.fst →
      lookupGoAny (toMapFields fields) n = none := by
  intro fields
  induction fields with
  | nil => intro n _; rfl
  | cons nv fs ih =>
    obtain ⟨m, u⟩ := nv
    intro n hn
    simp only [List.map, List.mem_cons, not_or] at hn
    obtain ⟨hne, hrest⟩ := hn
    rw [toMapFields.eq_def]
    by_cases hz : isZero u = true
    · simp only [hz, if_true]
      exact ih n hrest
    · simp only [hz, if_false, Bool.false_eq_true]
      rw [lookupGoAny.eq_def]
      simp only []
      rw [if_neg (fun hh => hne hh.symm)]
      exact ih n hrest

theorem toMapFields_sparse :
    ∀ (fields : List (String × Value)), (fields.map Prod.fst).Nodup →
    (∀ n v, (n, v) ∈ fields → isZero v = true →
        lookupGoAny (toMapFields fields) n = none)
    ∧ (∀ n w, lookupGoAny (toMapFields fields) n = some w →
        ∃ v, (n, v) ∈ fields ∧ isZero v = false ∧ w = dynValue v) := by
  intro fields
  induction fields with
  | nil =>
    intro _
    constructor
    · intro n v h; simp at h
    · intro n w h; simp [toMapFields, lookupGoAny] at h
  | cons nv fs ih =>
    obtain ⟨m, u⟩ := nv
    intro hnd
    simp only [List.map, List.nodup_cons] at hnd
    obtain ⟨hm, hnd2⟩ := hnd
    obtain ⟨ih1, ih2⟩ := ih hnd2
    constructor
    · intro n v hmem hz
      rw [toMapFields.eq_def]
      rcases List.mem_cons.mp hmem with heq | htail
      · injection heq with h1 h2
        subst h1 h2
        simp only [hz, if_true]
        exact lookupGoAny_toMapFields_not_mem fs n hm
      · by_cases hzu : isZero u = true
        · simp only [hzu, if_true]
          exact ih1 n v htail hz
        · simp only [hzu, if_false, Bool.false_eq_true]
          rw [lookupGoAny.eq_def]
          simp only []
          have hne : ¬(m = n) := by
            intro he
            subst he
            exact hm (List.mem_map.mpr ⟨(m, v), htail, rfl⟩)
          rw [if_neg hne]
          exact ih1 n v htail hz
    · intro n w hlk
      rw [toMapFields.eq_def] at hlk
      by_cases hzu : isZero u = true
      · simp only [hzu, if_true] at hlk
        obtain ⟨v, hv, hvz, hw⟩ := ih2 n w hlk
        exact ⟨v, List.mem_cons_of_mem _ hv, hvz, hw⟩
      · simp only [hzu, if_false, Bool.false_eq_true] at hlk
        rw [lookupGoAny.eq_def] at hlk
        simp only [] at hlk
        by_cases hme : m = n
        · subst hme
          rw [if_pos rfl] at hlk
          injection hlk with hw
          exact ⟨u, List.mem_cons_self _ _, by simpa using hzu, hw.symm⟩
        · rw [if_neg hme] at hlk
          obtain ⟨v, hv, hvz, hw⟩ := ih2 n w hlk
          exact ⟨v, List.mem_cons_of_mem _ hv, hvz, hw⟩

/-- C9: ToMap sparsity — for a record with (Go-mandated) distinct field
names, every zero-valued field is omitted from the mapping, and any key
present maps to that field's non-zero current value (seen as a Go `any`,
i.e. `dynValue`). -/
theorem toMap_sparse (fields : List (String × Value))
    (hnd : (fields.map Prod.fst).Nodup) :
    (∀ n v, (n, v) ∈ fields → isZero v = true →
        lookupGoAny (ToMap (.vStruct fields)) n = none)
    ∧ (∀ n w, lookupGoAny (ToMap (.vStruct fields)) n = some w →
        ∃ v, (n, v) ∈ fields ∧ isZero v = false ∧ w = dynValue v) :=
  toMapFields_sparse fields hnd

/-- Witness for C9 at a concrete record with a zero and a non-zero field. -/
theorem toMap_sparse_witness :
    (∀ n v, (n, v) ∈ ([("Name", Value.vStr "Alice"), ("Age", Value.vInt 0)]
          : List (String × Value)) → isZero v = true →
        lookupGoAny (ToMap (.vStruct [("Name", .vStr "Alice"), ("Age", .vInt 0)])) n = none)
    ∧ (∀ n w, lookupGoAny (ToMap (.vStruct [("Name", .vStr "Alice"), ("Age", .vInt 0)])) n
          = some w →
        ∃ v, (n, v) ∈ ([("Name", Value.vStr "Alice"), ("Age", Value.vInt 0)]
          : List (String × Value)) ∧ isZero v = false ∧ w = dynValue v) :=
  toMap_sparse [("Name", .vStr "Alice"), ("Age", .vInt 0)] (by decide)

theorem typeOfFields_names : ∀ fs : List (String × Value),
    (typeOfFields fs).map Prod.fst = fs.map Prod.fst := by
  intro fs
  induction fs with
  | nil => rfl
  | cons nv rest ih =>
    obtain ⟨n, v⟩ := nv
    simp [typeOfFields, ih]

theorem findField_isSome_of_mem_names : ∀ (fs : List (String × Value)) (n : String),
    n ∈ fs.map Prod.fst → ∃ v, findField fs n = some v := by
  intro fs
  induction fs with
  | nil => intro n h; simp at h
  | cons nv rest ih =>
    obtain ⟨m, u⟩ := nv
    intro n h
    by_cases hm : m = n
    · exact ⟨u, by simp [findField, hm]⟩
    · simp only [List.map, List.mem_cons] at h
      rcases h with h | h
      · exact absurd h.symm hm
      · obtain ⟨v, hv⟩ := ih n h
        exact ⟨v, by simp [findField, hm, hv]⟩

theorem setFieldByName_findField (m q : String) (w : Value) :
    ∀ rf : List (String × Value),
      findField (setFieldByName rf m w) q
        = if q = m then (findField rf m).map (fun _ => w) else findField rf q := by
  intro rf
  induction rf with
  | nil => by_cases hq : q = m <;> simp [setFieldByName, findField, hq]
  | cons nv rest ih =>
    obtain ⟨n, v⟩ := nv
    by_cases hn : n = m <;> by_cases hq : q = m <;> by_cases hnq : n = q <;>
      simp_all [setFieldByName, findField]

theorem setFieldByName_names (m : String) (w : Value) :
    ∀ rf : List (String × Value), (setFieldByName rf m w).map Prod.fst = rf.map Prod.fst := by
  intro rf
  induction rf with
  | nil => rfl
  | cons nv rest ih =>
    obtain ⟨n, v⟩ := nv
    by_cases hn : n = m <;> simp [setFieldByName, hn, ih]

theorem findField_mem_names : ∀ (fs : List (String × Value)) (n : String) (v : Value),
    findField fs n = some v → n ∈ fs.map Prod.fst := by
  intro fs
  induction fs with
  | nil => intro n v h; simp [findField] at h
  | cons nv rest ih =>
    obtain ⟨m, u⟩ := nv
    intro n v h
    by_cases hm : m = n
    · simp [hm]
    · rw [findField.eq_def] at h
      simp only [] at h
      rw [if_neg hm] at h
      simp only [List.map, List.mem_cons]
      exact Or.inr (ih n v h)

theorem mergeFieldsInto_spec : ∀ (gs rf : List (String × Value)),
    (gs.map Prod.fst).Nodup →
    ∃ rf', mergeFieldsInto (.vStruct rf) gs = .vStruct rf'
      ∧ rf'.map Prod.fst = rf.map Prod.fst
      ∧ ∀ n, findField rf' n
          = (match findField gs n with
             | none => findField rf n
             | some gv =>
               if isZero gv then findField rf n
               else (findField rf n).map (fun _ => gv)) := by
  intro gs
  induction gs with
  | nil =>
    intro rf _
    exact ⟨rf, rfl, rfl, fun n => by simp [findField]⟩
  | cons mg rest ih =>
    obtain ⟨m, gv⟩ := mg
    intro rf hnd
    simp only [List.map, List.nodup_cons] at hnd
    obtain ⟨hm, hnd2⟩ := hnd
    have hrest_none : findField rest m = none := by
      cases hfr : findField rest m with
      | none => rfl
      | some u => exact absurd (findField_mem_names rest m u hfr) hm
    by_cases hz : isZero gv = true
    · obtain ⟨rf', h1, h2, h3⟩ := ih rf hnd2
      refine ⟨rf', ?_, h2, ?_⟩
      · rw [mergeFieldsInto.eq_def]
        simp only [hz, if_true]
        exact h1
      · intro n
        simp only [findField]
        by_cases hmn : m = n
        · subst hmn
          rw [if_pos rfl]
          rw [h3 m, hrest_none]
          simp only [hz, if_true]
        · rw [if_neg hmn]
          exact h3 n
    · obtain ⟨rf', h1, h2, h3⟩ := ih (setFieldByName rf m gv) hnd2
      refine ⟨rf', ?_, ?_, ?_⟩
      · rw [mergeFieldsInto.eq_def]
        simp only [hz, if_false, Bool.false_eq_true]
        exact h1
      · rw [h2, setFieldByName_names]
      · intro n
        simp only [findField]
        by_cases hmn : m = n
        · subst hmn
          rw [if_pos rfl]
          rw [h3 m, hrest_none]
          simp only []
          rw [setFieldByName_findField]
          rw [if_pos rfl]
          simp only [hz, if_false, Bool.false_eq_true]
        · rw [if_neg hmn]
          rw [h3 n]
          rw [setFieldByName_findField]
          rw [if_neg (fun h => hmn h.symm)]


theorem elemsAllZero_replicate (z : Value) (hz : isZero z = true) :
    ∀ n, elemsAllZero (List.replicate n z) = true := by
  intro n
  induction n with
  | zero => rfl
  | succ k ih => simp [List.replicate, elemsAllZero, hz, ih]

mutual

theorem isZero_zeroOf : ∀ t : Ty, isZero (zeroOf t) = true
  | .int => rfl
  | .str => rfl
  | .bool => rfl
  | .struct fts => fieldsAllZero_zeroOfFields fts
  | .ptr _ => rfl
  | .slice _ => rfl
  | .tmap _ _ => rfl
  | .array n t => elemsAllZero_replicate (zeroOf t) (isZero_zeroOf t) n
  | .iface => rfl

theorem fieldsAllZero_zeroOfFields : ∀ fts : List (String × Ty),
    fieldsAllZero (zeroOfFields fts) = true
  | [] => rfl
  | (n, t) :: fts => by
    simp [zeroOfFields, fieldsAllZero, isZero_zeroOf t, fieldsAllZero_zeroOfFields fts]

end

theorem zeroOfFields_names : ∀ fts : List (String × Ty),
    (zeroOfFields fts).map Prod.fst = fts.map Prod.fst := by
  intro fts
  induction fts with
  | nil => rfl
  | cons nt rest ih =>
    obtain ⟨n, t⟩ := nt
    simp [zeroOfFields, ih]

theorem findField_zeroOfFields : ∀ (fts : List (String × Ty)) (n : String) (w : Value),
    findField (zeroOfFields fts) n = some w → isZero w = true := by
  intro fts
  induction fts with
  | nil => intro n w h; simp [zeroOfFields, findField] at h
  | cons nt rest ih =>
    obtain ⟨m, t⟩ := nt
    intro n w h
    rw [zeroOfFields.eq_def] at h
    simp only [findField] at h
    by_cases hm : m = n
    · rw [if_pos hm] at h
      injection h with hw
      subst hw
      exact isZero_zeroOf t
    · rw [if_neg hm] at h
      exact ih n w h

theorem foldl_merge_spec (fts : List (String × Ty)) (hnd : (fts.map Prod.fst).Nodup) :
    ∀ (ins : List (List (String × Value))) (accf : List (String × Value)),
      (∀ fs ∈ ins, typeOfFields fs = fts) →
      accf.map Prod.fst = fts.map Prod.fst →
      ∀ n ft, (n, ft) ∈ fts →
      ∃ mf w, (ins.map Value.vStruct).foldl mergeOne (.vStruct accf) = .vStruct mf
        ∧ findField mf n = some w
        ∧ ∀ w₀, findField accf n = some w₀ →
            (match lastNonZeroOpt (ins.map fun fs => (findField fs n).getD (zeroOf ft)) with
             | some u => w = u
             | none => w = w₀) := by
  intro ins
  induction ins with
  | nil =>
    intro accf _ hnames n ft hmem
    have hn : n ∈ accf.map Prod.fst := by
      rw [hnames]
      exact List.mem_map.mpr ⟨(n, ft), hmem, rfl⟩
    obtain ⟨w, hw⟩ := findField_isSome_of_mem_names accf n hn
    refine ⟨accf, w, rfl, hw, ?_⟩
    intro w₀ hw₀
    have he : w = w₀ := by rw [hw] at hw₀; injection hw₀
    simp [lastNonZeroOpt, he]
  | cons g ins2 ih =>
    intro accf htys hnames n ft hmem
    have htg : typeOfFields g = fts := htys g (List.mem_cons_self _ _)
    have hgnames : g.map Prod.fst = fts.map Prod.fst := by
      rw [← typeOfFields_names, htg]
    have hgnd : (g.map Prod.fst).Nodup := by rw [hgnames]; exact hnd
    obtain ⟨accf2, hmrg, hnames2, hform⟩ := mergeFieldsInto_spec g accf hgnd
    have hstep : mergeOne (.vStruct accf) (.vStruct g) = .vStruct accf2 := by
      unfold mergeOne
      rw [show dynValue (.vStruct g) = some (.vStruct g) from rfl]
      exact hmrg
    have hnames2' : accf2.map Prod.fst = fts.map Prod.fst := by rw [hnames2, hnames]
    obtain ⟨mf, w, hfold, hw, hclause⟩ :=
      ih accf2 (fun fs hfs => htys fs (List.mem_cons_of_mem _ hfs)) hnames2' n ft hmem
    refine ⟨mf, w, ?_, hw, ?_⟩
    · simp only [List.map, List.foldl, hstep]
      exact hfold
    · intro w₀ hw₀
      have hgn : n ∈ g.map Prod.fst := by
        rw [hgnames]
        exact List.mem_map.mpr ⟨(n, ft), hmem, rfl⟩
      obtain ⟨gv, hgv⟩ := findField_isSome_of_mem_names g n hgn
      have hacc2 : findField accf2 n
          = some (if isZero gv then w₀ else gv) := by
        rw [hform n, hgv]
        by_cases hz : isZero gv = true
        · simp only [hz, if_true, hw₀]
        · simp only [hz, if_false, Bool.false_eq_true, hw₀, Option.map]
      have hcl := hclause (if isZero gv then w₀ else gv) hacc2
      have hv : ((findField g n).getD (zeroOf ft)) = gv := by rw [hgv]; rfl
      simp only [List.map, hv, lastNonZeroOpt]
      cases hlnz : lastNonZeroOpt (ins2.map fun fs => (findField fs n).getD (zeroOf ft)) with
      | some u =>
        rw [hlnz] at hcl
        simp only [] at hcl ⊢
        exact hcl
      | none =>
        rw [hlnz] at hcl
        simp only [] at hcl ⊢
        by_cases hz : isZero gv = true
        · simp only [hz, if_true] at hcl ⊢
          exact hcl
        · simp only [hz, if_false, Bool.false_eq_true] at hcl ⊢
          exact hcl

/-- C5: Merge is field-wise last-non-zero-wins — for same-type records,
each field of the result carries the value of the last input whose value
for that field is non-zero and is zero-valued when every input is zero
there; an empty input yields the zero record and a one-element input is
returned unchanged. -/
theorem merge_last_nonzero (fts : List (String × Ty)) (inputs : List (List (String × Value)))
    (htys : ∀ fs ∈ inputs, typeOfFields fs = fts)
    (hnd : (fts.map Prod.fst).Nodup) :
    (∀ n ft, (n, ft) ∈ fts →
      ∃ mf w, Merge (.struct fts) (inputs.map Value.vStruct) = .vStruct mf
        ∧ findField mf n = some w
        ∧ (match lastNonZeroOpt (inputs.map fun fs => (findField fs n).getD (zeroOf ft)) with
           | some u => w = u
           | none => isZero w = true))
    ∧ Merge (.struct fts) ([] : List Value) = zeroOf (.struct fts)
    ∧ (∀ s : Value, Merge (.struct fts) [s] = s) := by
  refine ⟨?_, rfl, fun s => rfl⟩
  intro n ft hmem
  have hnmem : n ∈ fts.map Prod.fst := List.mem_map.mpr ⟨(n, ft), hmem, rfl⟩
  cases inputs with
  | nil =>
    have hz : n ∈ (zeroOfFields fts).map Prod.fst := by rw [zeroOfFields_names]; exact hnmem
    obtain ⟨w, hw⟩ := findField_isSome_of_mem_names (zeroOfFields fts) n hz
    exact ⟨zeroOfFields fts, w, rfl, hw, by
      simp only [List.map, lastNonZeroOpt]
      exact findField_zeroOfFields fts n w hw⟩
  | cons f0 rest0 =>
    cases rest0 with
    | nil =>
      have hf0 : typeOfFields f0 = fts := htys f0 (List.mem_cons_self _ _)
      have hfn : n ∈ f0.map Prod.fst := by
        rw [← typeOfFields_names, hf0]; exact hnmem
      obtain ⟨v, hv⟩ := findField_isSome_of_mem_names f0 n hfn
      refine ⟨f0, v, rfl, hv, ?_⟩
      have hgd : ((findField f0 n).getD (zeroOf ft)) = v := by rw [hv]; rfl
      simp only [List.map, hgd, lastNonZeroOpt]
      by_cases hz : isZero v = true
      · simp only [hz, if_true]
      · simp only [hz, if_false, Bool.false_eq_true]
    | cons f1 rest =>
      have hf0 : typeOfFields f0 = fts := htys f0 (List.mem_cons_self _ _)
      have hfn : n ∈ f0.map Prod.fst := by
        rw [← typeOfFields_names, hf0]; exact hnmem
      obtain ⟨v, hv⟩ := findField_isSome_of_mem_names f0 n hfn
      obtain ⟨mf, w, hfold, hw, hclause⟩ :=
        foldl_merge_spec fts hnd (f1 :: rest) f0
          (fun fs hfs => htys fs (List.mem_cons_of_mem _ hfs))
          (by rw [← typeOfFields_names, hf0]) n ft hmem
      refine ⟨mf, w, ?_, hw, ?_⟩
      · rw [show (f0 :: f1 :: rest).map Value.vStruct
            = Value.vStruct f0 :: (f1 :: rest).map Value.vStruct from rfl]
        rw [Merge.eq_def]
        exact hfold
      · have hcl := hclause v hv
        have hgd : ((findField f0 n).getD (zeroOf ft)) = v := by rw [hv]; rfl
        rw [show ((f0 :: f1 :: rest).map fun fs => (findField fs n).getD (zeroOf ft))
            = ((findField f0 n).getD (zeroOf ft))
              :: ((f1 :: rest).map fun fs => (findField fs n).getD (zeroOf ft)) from rfl]
        rw [hgd]
        rw [lastNonZeroOpt.eq_def]
        simp only []
        cases hlnz : lastNonZeroOpt ((f1 :: rest).map fun fs => (findField fs n).getD (zeroOf ft)) with
        | some u =>
          rw [hlnz] at hcl
          simp only [] at hcl ⊢
          exact hcl
        | none =>
          rw [hlnz] at hcl
          simp only [] at hcl ⊢
          by_cases hz : isZero v = true
          · simp only [hz, if_true]
            rw [hcl]
            exact hz
          · simp only [hz, if_false, Bool.false_eq_true]
            exact hcl

/-- Witness for C5 at the spec's chaining example
Merge({Name:"A",Age:25}, {Name:"B",Age:0}, {Name:"",Age:0}). -/
theorem merge_last_nonzero_witness :
    (∀ n ft, (n, ft) ∈ ([("Name", Ty.str), ("Age", Ty.int)] : List (String × Ty)) →
      ∃ mf w, Merge (.struct [("Name", Ty.str), ("Age", Ty.int)])
          (([[("Name", Value.vStr "A"), ("Age", Value.vInt 25)],
             [("Name", Value.vStr "B"), ("Age", Value.vInt 0)],
             [("Name", Value.vStr ""), ("Age", Value.vInt 0)]]
            : List (List (String × Value))).map Value.vStruct) = .vStruct mf
        ∧ findField mf n = some w
        ∧ (match lastNonZeroOpt (([[("Name", Value.vStr "A"), ("Age", Value.vInt 25)],
             [("Name", Value.vStr "B"), ("Age", Value.vInt 0)],
             [("Name", Value.vStr ""), ("Age", Value.vInt 0)]]
            : List (List (String × Value))).map
              fun fs => (findField fs n).getD (zeroOf ft)) with
           | some u => w = u
           | none => isZero w = true))
    ∧ Merge (.struct [("Name", Ty.str), ("Age", Ty.int)]) ([] : List Value)
        = zeroOf (.struct [("Name", Ty.str), ("Age", Ty.int)])
    ∧ (∀ s : Value, Merge (.struct [("Name", Ty.str), ("Age", Ty.int)]) [s] = s) :=
  merge_last_nonzero [("Name", .str), ("Age", .int)]
    [[("Name", .vStr "A"), ("Age", .vInt 25)],
     [("Name", .vStr "B"), ("Age", .vInt 0)],
     [("Name", .vStr ""), ("Age", .vInt 0)]]
    (by decide) (by decide)

mutual

theorem erase_deepCopy : ∀ (f : Nat) (v : Value), erase (deepCopyValue f v).1 = erase v
  | _, .vInt _ => rfl
  | _, .vStr _ => rfl
  | _, .vBool _ => rfl
  | f, .vStruct fs => by simp [deepCopyValue, erase, erase_deepCopyFields f fs]
  | _, .vPtrNil _ => rfl
  | f, .vPtr t a p => by simp [deepCopyValue, erase, erase_deepCopy f p]
  | _, .vSliceNil _ => rfl
  | f, .vSlice t a es => by simp [deepCopyValue, erase, erase_deepCopyList f es]
  | _, .vMapNil _ _ => rfl
  | f, .vMap k v a es => by simp [deepCopyValue, erase, erase_deepCopyEntries f es]
  | f, .vArr t es => by simp [deepCopyValue, erase, erase_deepCopyList f es]
  | _, .vIfaceNil => rfl
  | f, .vIface x => by simp [deepCopyValue, erase, erase_deepCopy f x]

theorem erase_deepCopyFields : ∀ (f : Nat) (fs : List (String × Value)),
    eraseFields (deepCopyFields f fs).1 = eraseFields fs
  | _, [] => rfl
  | f, (n, v) :: fs => by
    simp [deepCopyFields, eraseFields, erase_deepCopy f v,
      erase_deepCopyFields (deepCopyValue f v).2 fs]

theorem erase_deepCopyList : ∀ (f : Nat) (es : List Value),
    eraseList (deepCopyList f es).1 = eraseList es
  | _, [] => rfl
  | f, v :: es => by
    simp [deepCopyList, eraseList, erase_deepCopy f v,
      erase_deepCopyList (deepCopyValue f v).2 es]

theorem erase_deepCopyEntries : ∀ (f : Nat) (es : List (Value × Value)),
    eraseEntries (deepCopyEntries f es).1 = eraseEntries es
  | _, [] => rfl
  | f, (k, v) :: es => by
    simp [deepCopyEntries, eraseEntries, erase_deepCopy f k,
      erase_deepCopy (deepCopyValue f k).2 v,
      erase_deepCopyEntries (deepCopyValue (deepCopyValue f k).2 v).2 es]

end

mutual

theorem deepCopy_mono : ∀ (f : Nat) (v : Value), f ≤ (deepCopyValue f v).2
  | _, .vInt _ => le_refl _
  | _, .vStr _ => le_refl _
  | _, .vBool _ => le_refl _
  | f, .vStruct fs => deepCopyFields_mono f fs
  | _, .vPtrNil _ => le_refl _
  | f, .vPtr t a p => by
    have := deepCopy_mono f p
    simp only [deepCopyValue]
    omega
  | _, .vSliceNil _ => le_refl _
  | f, .vSlice t a es => by
    have := deepCopyList_mono f es
    simp only [deepCopyValue]
    omega
  | _, .vMapNil _ _ => le_refl _
  | f, .vMap k v a es => by
    have := deepCopyEntries_mono f es
    simp only [deepCopyValue]
    omega
  | f, .vArr t es => deepCopyList_mono f es
  | _, .vIfaceNil => le_refl _
  | f, .vIface x => deepCopy_mono f x

theorem deepCopyFields_mono : ∀ (f : Nat) (fs : List (String × Value)),
    f ≤ (deepCopyFields f fs).2
  | _, [] => le_refl _
  | f, (n, v) :: fs => by
    have h1 := deepCopy_mono f v
    have h2 := deepCopyFields_mono (deepCopyValue f v).2 fs
    simp only [deepCopyFields]
    omega

theorem deepCopyList_mono : ∀ (f : Nat) (es : List Value), f ≤ (deepCopyList f es).2
  | _, [] => le_refl _
  | f, v :: es => by
    have h1 := deepCopy_mono f v
    have h2 := deepCopyList_mono (deepCopyValue f v).2 es
    simp only [deepCopyList]
    omega

theorem deepCopyEntries_mono : ∀ (f : Nat) (es : List (Value × Value)),
    f ≤ (deepCopyEntries f es).2
  | _, [] => le_refl _
  | f, (k, v) :: es => by
    have h1 := deepCopy_mono f k
    have h2 := deepCopy_mono (deepCopyValue f k).2 v
    have h3 := deepCopyEntries_mono (deepCopyValue (deepCopyValue f k).2 v).2 es
    simp only [deepCopyEntries]
    omega

end

mutual

theorem deepCopy_addrs_ge : ∀ (f : Nat) (v : Value) (a : Nat),
    a ∈ addrs (deepCopyValue f v).1 → f ≤ a
  | _, .vInt _, a => by intro h; simp [deepCopyValue, addrs] at h
  | _, .vStr _, a => by intro h; simp [deepCopyValue, addrs] at h
  | _, .vBool _, a => by intro h; simp [deepCopyValue, addrs] at h
  | f, .vStruct fs, a => by
    intro h
    simp only [deepCopyValue, addrs] at h
    exact deepCopyFields_addrs_ge f fs a h
  | _, .vPtrNil _, a => by intro h; simp [deepCopyValue, addrs] at h
  | f, .vPtr t a0 p, a => by
    intro h
    simp only [deepCopyValue, addrs, List.mem_cons] at h
    rcases h with h | h
    · subst h; exact deepCopy_mono f p
    · exact deepCopy_addrs_ge f p a h
  | _, .vSliceNil _, a => by intro h; simp [deepCopyValue, addrs] at h
  | f, .vSlice t a0 es, a => by
    intro h
    simp only [deepCopyValue, addrs, List.mem_cons] at h
    rcases h with h | h
    · subst h; exact deepCopyList_mono f es
    · exact deepCopyList_addrs_ge f es a h
  | _, .vMapNil _ _, a => by intro h; simp [deepCopyValue, addrs] at h
  | f, .vMap k v a0 es, a => by
    intro h
    simp only [deepCopyValue, addrs, List.mem_cons] at h
    rcases h with h | h
    · subst h; exact deepCopyEntries_mono f es
    · exact deepCopyEntries_addrs_ge f es a h
  | f, .vArr t es, a => by
    intro h
    simp only [deepCopyValue, addrs] at h
    exact deepCopyList_addrs_ge f es a h
  | _, .vIfaceNil, a => by intro h; simp [deepCopyValue, addrs] at h
  | f, .vIface x, a => by
    intro h
    simp only [deepCopyValue, addrs] at h
    exact deepCopy_addrs_ge f x a h

theorem deepCopyFields_addrs_ge : ∀ (f : Nat) (fs : List (String × Value)) (a : Nat),
    a ∈ addrsFields (deepCopyFields f fs).1 → f ≤ a
  | _, [], a => by intro h; simp [deepCopyFields, addrsFields] at h
  | f, (n, v) :: fs, a => by
    intro h
    simp only [deepCopyFields, addrsFields, List.mem_append] at h
    rcases h with h | h
    · exact deepCopy_addrs_ge f v a h
    · have h2 := deepCopyFields_addrs_ge (deepCopyValue f v).2 fs a h
      have h1 := deepCopy_mono f v
      omega

theorem deepCopyList_addrs_ge : ∀ (f : Nat) (es : List Value) (a : Nat),
    a ∈ addrsList (deepCopyList f es).1 → f ≤ a
  | _, [], a => by intro h; simp [deepCopyList, addrsList] at h
  | f, v :: es, a => by
    intro h
    simp only [deepCopyList, addrsList, List.mem_append] at h
    rcases h with h | h
    · exact deepCopy_addrs_ge f v a h
    · have h2 := deepCopyList_addrs_ge (deepCopyValue f v).2 es a h
      have h1 := deepCopy_mono f v
      omega

theorem deepCopyEntries_addrs_ge : ∀ (f : Nat) (es : List (Value × Value)) (a : Nat),
    a ∈ addrsEntries (deepCopyEntries f es).1 → f ≤ a
  | _, [], a => by intro h; simp [deepCopyEntries, addrsEntries] at h
  | f, (k, v) :: es, a => by
    intro h
    simp only [deepCopyEntries, addrsEntries, List.mem_append] at h
    have h1 := deepCopy_mono f k
    have h2 := deepCopy_mono (deepCopyValue f k).2 v
    rcases h with (h | h) | h
    · exact deepCopy_addrs_ge f k a h
    · have := deepCopy_addrs_ge (deepCopyValue f k).2 v a h
      omega
    · have := deepCopyEntries_addrs_ge (deepCopyValue (deepCopyValue f k).2 v).2 es a h
      omega

end

mutual

theorem applyMut_notin : ∀ (a : Nat) (m : Mutation) (v : Value),
    a ∉ addrs v → applyMut a m v = v
  | _, _, .vInt _ => fun _ => rfl
  | _, _, .vStr _ => fun _ => rfl
  | _, _, .vBool _ => fun _ => rfl
  | a, m, .vStruct fs => by
    intro h
    simp only [addrs] at h
    simp only [applyMut]
    rw [applyMutFields_notin a m fs h]
  | _, _, .vPtrNil _ => fun _ => rfl
  | a, m, .vPtr t a0 p => by
    intro h
    simp only [addrs, List.mem_cons, not_or] at h
    obtain ⟨h1, h2⟩ := h
    simp only [applyMut]
    rw [if_neg (fun hh => h1 hh.symm)]
    rw [applyMut_notin a m p h2]
  | _, _, .vSliceNil _ => fun _ => rfl
  | a, m, .vSlice t a0 es => by
    intro h
    simp only [addrs, List.mem_cons, not_or] at h
    obtain ⟨h1, h2⟩ := h
    simp only [applyMut]
    rw [if_neg (fun hh => h1 hh.symm)]
    rw [applyMutList_notin a m es h2]
  | _, _, .vMapNil _ _ => fun _ => rfl
  | a, m, .vMap k v a0 es => by
    intro h
    simp only [addrs, List.mem_cons, not_or] at h
    obtain ⟨h1, h2⟩ := h
    simp only [applyMut]
    rw [if_neg (fun hh => h1 hh.symm)]
    rw [applyMutEntries_notin a m es h2]
  | a, m, .vArr t es => by
    intro h
    simp only [addrs] at h
    simp only [applyMut]
    rw [applyMutList_notin a m es h]
  | _, _, .vIfaceNil => fun _ => rfl
  | a, m, .vIface x => by
    intro h
    simp only [addrs] at h
    simp only [applyMut]
    rw [applyMut_notin a m x h]

theorem applyMutFields_notin : ∀ (a : Nat) (m : Mutation) (fs : List (String × Value)),
    a ∉ addrsFields fs → applyMutFields a m fs = fs
  | _, _, [] => fun _ => rfl
  | a, m, (n, v) :: fs => by
    intro h
    simp only [addrsFields, List.mem_append, not_or] at h
    obtain ⟨h1, h2⟩ := h
    simp only [applyMutFields]
    rw [applyMut_notin a m v h1, applyMutFields_notin a m fs h2]

theorem applyMutList_notin : ∀ (a : Nat) (m : Mutation) (es : List Value),
    a ∉ addrsList es → applyMutList a m es = es
  | _, _, [] => fun _ => rfl
  | a, m, v :: es => by
    intro h
    simp only [addrsList, List.mem_append, not_or] at h
    obtain ⟨h1, h2⟩ := h
    simp only [applyMutList]
    rw [applyMut_notin a m v h1, applyMutList_notin a m es h2]

theorem applyMutEntries_notin : ∀ (a : Nat) (m : Mutation) (es : List (Value × Value)),
    a ∉ addrsEntries es → applyMutEntries a m es = es
  | _, _, [] => fun _ => rfl
  | a, m, (k, v) :: es => by
    intro h
    simp only [addrsEntries, List.mem_append, not_or] at h
    obtain ⟨⟨h1, h2⟩, h3⟩ := h
    simp only [applyMutEntries]
    rw [applyMut_notin a m k h1, applyMut_notin a m v h2, applyMutEntries_notin a m es h3]

end

/-- C2: deep-clone independence and structural equality — for a record
whose reachable backing-store addresses all lie below the allocation
counter, the clone is structurally equal to the source after forgetting
addresses (what `reflect.DeepEqual` compares), shares no backing-storage
address with the source, and consequently a write through any storage cell
reachable from one of them is never visible in the other. -/
theorem clone_independent (fields : List (String × Value)) (fresh : Nat)
    (hfresh : ∀ a ∈ addrs (.vStruct fields), a < fresh) :
    erase (Clone fresh (.vStruct fields)).1 = erase (.vStruct fields)
    ∧ (∀ a, a ∈ addrs (Clone fresh (.vStruct fields)).1 → a ∉ addrs (.vStruct fields))
    ∧ (∀ a m, a ∈ addrs (.vStruct fields) →
        applyMut a m (Clone fresh (.vStruct fields)).1 = (Clone fresh (.vStruct fields)).1)
    ∧ (∀ a m, a ∈ addrs (Clone fresh (.vStruct fields)).1 →
        applyMut a m (.vStruct fields) = (.vStruct fields)) := by
  have hclone : Clone fresh (.vStruct fields) = deepCopyValue fresh (.vStruct fields) := rfl
  rw [hclone]
  have hdisj : ∀ a, a ∈ addrs (deepCopyValue fresh (.vStruct fields)).1
      → a ∉ addrs (.vStruct fields) := by
    intro a ha hmem
    have h1 := deepCopy_addrs_ge fresh (.vStruct fields) a ha
    have h2 := hfresh a hmem
    omega
  refine ⟨erase_deepCopy fresh (.vStruct fields), hdisj, ?_, ?_⟩
  · intro a m hmem
    exact applyMut_notin a m _ (fun hc => hdisj a hc hmem)
  · intro a m hc
    exact applyMut_notin a m _ (hdisj a hc)

/-- Witness for C2 at a concrete record holding a pointer, a slice and a
nested record. -/
theorem clone_independent_witness :
    erase (Clone 5 (.vStruct [("P", .vPtr .int 0 (.vInt 1)),
        ("S", .vSlice .int 1 [.vInt 2])])).1
      = erase (.vStruct [("P", .vPtr .int 0 (.vInt 1)), ("S", .vSlice .int 1 [.vInt 2])])
    ∧ (∀ a, a ∈ addrs (Clone 5 (.vStruct [("P", .vPtr .int 0 (.vInt 1)),
          ("S", .vSlice .int 1 [.vInt 2])])).1
        → a ∉ addrs (.vStruct [("P", .vPtr .int 0 (.vInt 1)), ("S", .vSlice .int 1 [.vInt 2])]))
    ∧ (∀ a m, a ∈ addrs (.vStruct [("P", .vPtr .int 0 (.vInt 1)), ("S", .vSlice .int 1 [.vInt 2])]) →
        applyMut a m (Clone 5 (.vStruct [("P", .vPtr .int 0 (.vInt 1)),
            ("S", .vSlice .int 1 [.vInt 2])])).1
          = (Clone 5 (.vStruct [("P", .vPtr .int 0 (.vInt 1)),
            ("S", .vSlice .int 1 [.vInt 2])])).1)
    ∧ (∀ a m, a ∈ addrs (Clone 5 (.vStruct [("P", .vPtr .int 0 (.vInt 1)),
            ("S", .vSlice .int 1 [.vInt 2])])).1 →
        applyMut a m (.vStruct [("P", .vPtr .int 0 (.vInt 1)), ("S", .vSlice .int 1 [.vInt 2])])
          = (.vStruct [("P", .vPtr .int 0 (.vInt 1)), ("S", .vSlice .int 1 [.vInt 2])])) :=
  clone_independent [("P", .vPtr .int 0 (.vInt 1)), ("S", .vSlice .int 1 [.vInt 2])] 5
    (by decide)

end rstruct
